import Mathlib

/-!
# Request signing and response decoding of the kraken-api client

A shallow embedding of `signature.go`, `kraken-api.go`, `client.go`, `types.go`, the
decoding loops of `public.go` and `private.go`, and the request parameters of `orders.go`.

Conventions of the embedding.

* A Go string is a Lean `String`; `[]byte` is a list of byte values (`Nat` below 256).
* A Go function returning `(value, error)` returns a pair whose second component is
  `Option Err` (`none` is the `nil` error).  Both components are kept, since Go hands both
  to the caller.
* A run-time panic (failed type assertion, index out of range) is the `error` side of
  `Except Panic`.
* Everything that lives outside the repository (the hash functions, base64, the clock,
  `strconv.ParseFloat`, the HTTP transport, the per-type reflection of `encoding/json`) is
  a parameter of the definitions that use it.
* `float64` is an arbitrary type `F`; the JSON numbers of a document are already `F` values.
-/

namespace Kraken

/-! ## Byte strings and Go maps -/

/-- A byte string, one `Nat` below 256 per byte. -/
abbrev Bytes := List Nat

/-- The conversion `[]byte(s)`: the UTF-8 encoding of a string. -/
def utf8 (s : String) : Bytes :=
  s.data.flatMap (fun c => (String.utf8EncodeChar c).map UInt8.toNat)

/-- A Go `map[string]β`, as the list of its entries.  The order of the list is the order in
which a `range` loop visits the entries. -/
abbrev GoMap (β : Type) := List (String × β)

/-- The lookup `m[k]` with its presence flag. -/
def GoMap.get? {β : Type} : GoMap β → String → Option β
  | [], _ => none
  | (k, v) :: rest, key => if k = key then some v else GoMap.get? rest key

/-- The assignment `m[k] = v`: the entry of `k` is overwritten when there is one, a new
entry is added otherwise. -/
def GoMap.set {β : Type} : GoMap β → String → β → GoMap β
  | [], key, v => [(key, v)]
  | (k, w) :: rest, key, v =>
    if k = key then (k, v) :: rest else (k, w) :: GoMap.set rest key v

/-! ## Errors and panics -/

/-- The Go `error` values the client can return. -/
inductive Err where
  /-- An error returned by `json.Unmarshal` (invalid JSON or a JSON value of the wrong
  kind for its Go target). -/
  | json
  /-- The `*strconv.NumError` of `strconv.ParseFloat` on the given input. -/
  | numError (input : String)
  /-- An error made by `fmt.Errorf` with the given message. -/
  | errorf (msg : String)
  /-- A `base64.CorruptInputError` at the given offset. -/
  | corruptInput (offset : Nat)
  /-- An error of the HTTP transport. -/
  | transport (msg : String)
  deriving DecidableEq, Repr

/-- The run-time panics of the decoding code. -/
inductive Panic where
  /-- A failed single-value type assertion `x.(T)`. -/
  | typeAssertion
  /-- An index expression `xs[i]` with `i` out of range. -/
  | indexOutOfRange
  deriving DecidableEq, Repr

/-! ## `net/url`: `url.Values` -/

/-- The type `url.Values`, a `map[string][]string`.  All callers in the repository build it
with `url.Values{}`, so it is never the nil map. -/
abbrev Values := GoMap (List String)

/-- `Values.Get`: the first value stored under the key, the empty string when there is
none. -/
def Values.Get (v : Values) (key : String) : String :=
  match GoMap.get? v key with
  | some (x :: _) => x
  | _ => ""

/-- `Values.Set`: `v[key] = []string{value}`. -/
def Values.Set (v : Values) (key value : String) : Values :=
  GoMap.set v key [value]

/-- The upper-case hexadecimal digit of a value below 16. -/
def hexDigit (n : Nat) : Char :=
  "0123456789ABCDEF".data.getD n '0'

/-- `shouldEscape` of `net/url` in query-component mode: every byte is escaped but the
unreserved ones (letters, digits, `-`, `_`, `.`, `~`). -/
def shouldEscape (c : Nat) : Bool :=
  !((97 ≤ c && c ≤ 122) || (65 ≤ c && c ≤ 90) || (48 ≤ c && c ≤ 57)
    || c = 45 || c = 95 || c = 46 || c = 126)

/-- The escaping of one byte by `url.QueryEscape`: a space becomes `+`, an escaped byte
becomes `%XX`. -/
def escapeByte (c : Nat) : List Char :=
  if c = 32 then ['+']
  else if shouldEscape c then ['%', hexDigit (c / 16), hexDigit (c % 16)]
  else [Char.ofNat c]

/-- `url.QueryEscape`. -/
def QueryEscape (s : String) : String :=
  ⟨(utf8 s).flatMap escapeByte⟩

/-- The order of Go strings (byte-wise, which on UTF-8 is the order of the code points). -/
def strLe (a b : String) : Bool :=
  decide (a.data ≤ b.data)

/-- Insertion of a key into a sorted list of keys. -/
def insertKey (k : String) : List String → List String
  | [] => [k]
  | x :: xs => if strLe k x then k :: x :: xs else x :: insertKey k xs

/-- The call `slices.Sort(keys)`. -/
def sortKeys : List String → List String
  | [] => []
  | k :: ks => insertKey k (sortKeys ks)

/-- The inner loop of `Values.Encode` over the values of one key; `buf` is the builder. -/
def encodeValues (keyEscaped : String) : List String → String → String
  | [], buf => buf
  | v :: vs, buf =>
    let buf1 := if buf.length > 0 then buf ++ "&" else buf
    encodeValues keyEscaped vs (buf1 ++ keyEscaped ++ "=" ++ QueryEscape v)

/-- The outer loop of `Values.Encode` over the sorted keys. -/
def encodeKeys (v : Values) : List String → String → String
  | [], buf => buf
  | k :: ks, buf =>
    encodeKeys v ks (encodeValues (QueryEscape k) ((GoMap.get? v k).getD []) buf)

/-- `Values.Encode`: the URL-encoded form `k1=v1&k2=v2`, sorted by key. -/
def Values.Encode (v : Values) : String :=
  if v.length = 0 then "" else encodeKeys v (sortKeys (v.map Prod.fst)) ""

/-! ## `signature.go` -/

/-- The functions of `crypto/sha256`, `crypto/hmac` with `crypto/sha512`, and
`encoding/base64` that the client calls. -/
structure Crypto where
  /-- The digest `sha256.New()`, `Write(input)`, `Sum(nil)`. -/
  sha256Sum : Bytes → Bytes
  /-- The code `hmac.New(sha512.New, key)`, `Write(message)`, `Sum(nil)`. -/
  hmacSha512Sum : (key : Bytes) → (message : Bytes) → Bytes
  /-- `base64.StdEncoding.EncodeToString`. -/
  encodeToString : Bytes → String
  /-- `base64.StdEncoding.DecodeString`: the decoded bytes and the error. -/
  decodeString : String → Bytes × Option Err

/-- `getSha256`. -/
def getSha256 (c : Crypto) (input : Bytes) : Bytes :=
  c.sha256Sum input

/-- `getHMacSha512`: the message comes first, the key second. -/
def getHMacSha512 (c : Crypto) (message secret : Bytes) : Bytes :=
  c.hmacSha512Sum secret message

/-- `createKrakenSignature`. -/
def createKrakenSignature (c : Crypto) (url_path : String) (values : Values)
    (secret : Bytes) : String :=
  let shasum := getSha256 c (utf8 (Values.Get values "nonce" ++ Values.Encode values))
  let macsum := getHMacSha512 c (utf8 url_path ++ shasum) secret
  c.encodeToString macsum

/-! ## `encoding/json` and `types.go`: documents and the response envelope -/

/-- A JSON document as `encoding/json` reads it, and at the same time the Go value that
decoding it into an empty `interface{}` produces: `null` is the nil interface, a number is a
`float64`, an array is a `[]interface{}`, an object is a `map[string]interface{}`.  The
members of an object are listed in the order in which they are visited.  A Go map holds one
value for a key: a member list stands for the map when its keys are distinct, which the
theorems on the decoded pairs of a result take as a hypothesis. -/
inductive JSON (F : Type) where
  | null
  | bool (b : Bool)
  | num (x : F)
  | str (s : String)
  | arr (xs : List (JSON F))
  | obj (ms : List (String × JSON F))

/-- The bytes handed to `json.Unmarshal`: their document, or `none` when they are not valid
JSON. -/
abbrev Raw (F : Type) := Option (JSON F)

/-- Decoding of one array element into a Go `string`: a JSON string is stored, `null` leaves
the zero value, any other value is an `UnmarshalTypeError`. -/
def stringElem {F : Type} : JSON F → Option String
  | .str s => some s
  | .null => some ""
  | _ => none

/-- Decoding of the elements of an array into a `[]string`. -/
def stringElems {F : Type} : List (JSON F) → Option (List String)
  | [] => some []
  | x :: xs =>
    match stringElem x, stringElems xs with
    | some s, some ss => some (s :: ss)
    | _, _ => none

/-- Decoding `json.Unmarshal(b, &out)` for `out []string`: `null` gives the nil slice, an
array gives its elements, any other value is an error (`none`). -/
def unmarshalStrings {F : Type} : JSON F → Option (List String)
  | .null => some []
  | .arr xs => stringElems xs
  | _ => none

/-- Decoding `json.Unmarshal(b, &out)` for `out []interface{}`. -/
def unmarshalSlice {F : Type} : JSON F → Option (List (JSON F))
  | .null => some []
  | .arr xs => some xs
  | _ => none

/-- The dynamic value of the field `Result interface{}`. -/
inductive Dyn (F α : Type) where
  /-- A value decoded into the empty interface; `untyped .null` is the nil interface. -/
  | untyped (j : JSON F)
  /-- The pointer passed as `struct_type`, with the value it points to. -/
  | ptr (target : α)

/-- The nil interface. -/
def Dyn.nil {F α : Type} : Dyn F α := .untyped .null

/-- `KrakenResponse` of `types.go`. -/
structure KrakenResponse (F α : Type) where
  Error : List String
  Result : Dyn F α

/-- Simple case folding of a character against an ASCII letter: besides the ASCII capitals,
only U+017F folds to `s` and U+212A folds to `k`. -/
def foldChar (c : Char) : Char :=
  if c = Char.ofNat 0x17F then 's'
  else if c = Char.ofNat 0x212A then 'k'
  else c.toLower

/-- The match of an object key with the lower-case ASCII name of a struct field:
`encoding/json` accepts the name itself and every case-insensitive spelling of it. -/
def equalFold (key name : String) : Bool :=
  key.data.map foldChar == name.data

/-- Decoding of one member of the envelope into `response`.  `unm` is the decoding of a JSON
value into the Go type behind the `struct_type` pointer (`none` is an error).  A member
`error` is decoded as a `[]string`, as into the nil slice that `parse` starts from; a member
`result` that is `null` sets the interface to
nil, otherwise it is decoded through the pointer when the interface holds one and into a
fresh untyped value when it does not; any other member is skipped. -/
def unmarshalField {F α : Type} (unm : JSON F → α → Option α) (r : KrakenResponse F α)
    (key : String) (value : JSON F) : Option (KrakenResponse F α) :=
  if equalFold key "error" then
    match unmarshalStrings value with
    | some es => some { r with Error := es }
    | none => none
  else if equalFold key "result" then
    match value, r.Result with
    | .null, _ => some { r with Result := Dyn.nil }
    | v, .ptr a =>
      match unm v a with
      | some b => some { r with Result := .ptr b }
      | none => none
    | v, .untyped _ => some { r with Result := .untyped v }
  else some r

/-- Decoding of the members of the envelope, in document order. -/
def unmarshalFields {F α : Type} (unm : JSON F → α → Option α) :
    List (String × JSON F) → KrakenResponse F α → Option (KrakenResponse F α)
  | [], r => some r
  | (key, value) :: rest, r =>
    match unmarshalField unm r key value with
    | some r1 => unmarshalFields unm rest r1
    | none => none

/-- The call `json.Unmarshal(resp, &response)`: invalid JSON is an error, `null` leaves
`response` as it is, an object is decoded member by member, any other value is an error. -/
def unmarshalResponse {F α : Type} (unm : JSON F → α → Option α) (resp : Raw F)
    (response : KrakenResponse F α) : Option (KrakenResponse F α) :=
  match resp with
  | some .null => some response
  | some (.obj ms) => unmarshalFields unm ms response
  | _ => none

/-- The verb `%s` of `fmt` applied to a `[]string`. -/
def formatStrings (xs : List String) : String :=
  "[" ++ " ".intercalate xs ++ "]"

/-- The error `fmt.Errorf("Could not execute request! (%s)", response.Error)`. -/
def apiError (errors : List String) : Err :=
  .errorf ("Could not execute request! (" ++ formatStrings errors ++ ")")

/-- `parse` of `kraken-api.go`.  `struct_type` is `none` for the nil interface and
`some target` for a pointer to `target`. -/
def parse {F α : Type} (unm : JSON F → α → Option α) (resp : Raw F)
    (struct_type : Option α) : Dyn F α × Option Err :=
  let response : KrakenResponse F α :=
    { Error := [],
      Result := match struct_type with
        | some target => .ptr target
        | none => Dyn.nil }
  match unmarshalResponse unm resp response with
  | none => (Dyn.nil, some .json)
  | some response =>
    if response.Error.length > 0 then (Dyn.nil, some (apiError response.Error))
    else (response.Result, none)

/-- `parse(resp, nil)`: no pointer is supplied, so no typed decoding takes place. -/
def parseNil {F : Type} (resp : Raw F) : Dyn F Empty × Option Err :=
  parse (fun _ (e : Empty) => some e) resp none

/-- Decoding `json.Unmarshal` into a Go struct or map value that is not null: an object is
decoded member by member by `fields`, a value of any other kind is an
`UnmarshalTypeError`. -/
def unmarshalStruct {F α : Type} (fields : List (String × JSON F) → α → Option α) :
    JSON F → α → Option α
  | .obj ms, a => fields ms a
  | _, _ => none

/-- A well-formed response envelope: the error strings and the result, when there is one. -/
structure Envelope (F : Type) where
  error : List String
  result : Option (JSON F)

/-- The document of an envelope. -/
def Envelope.toJSON {F : Type} (e : Envelope F) : JSON F :=
  .obj (("error", .arr (e.error.map .str)) ::
    match e.result with
    | some r => [("result", r)]
    | none => [])

/-! ## `types.go`: the tuple decoders -/

/-- `AskBid`. -/
structure AskBid (F : Type) where
  Price : F
  WholeLotVolume : F
  LotVolume : F

/-- `PublicOrder`. -/
structure PublicOrder (F : Type) where
  Price : F
  Volume : F
  Time : F

/-- The index expression `xs[i]` on a slice. -/
def index {β : Type} (xs : List β) (i : Nat) : Except Panic β :=
  match xs.get? i with
  | some x => .ok x
  | none => .error .indexOutOfRange

/-- The type assertion `v.(string)`. -/
def asString {F : Type} : JSON F → Except Panic String
  | .str s => .ok s
  | _ => .error .typeAssertion

/-- The type assertion `v.(float64)`. -/
def asFloat64 {F : Type} : JSON F → Except Panic F
  | .num x => .ok x
  | _ => .error .typeAssertion

/-- The type assertion `v.([]interface{})`. -/
def asSlice {F : Type} : JSON F → Except Panic (List (JSON F))
  | .arr xs => .ok xs
  | _ => .error .typeAssertion

/-- The type assertion `v.(map[string]interface{})`. -/
def asMap {F : Type} : JSON F → Except Panic (List (String × JSON F))
  | .obj ms => .ok ms
  | _ => .error .typeAssertion

/-- `AskBid.UnmarshalJSON`: the receiver after the call and the returned error.
`parseFloat` is `strconv.ParseFloat(_, 64)`, which returns a value together with its
error. -/
def AskBid.UnmarshalJSON {F : Type} (parseFloat : String → F × Option Err) (t : AskBid F)
    (b : Raw F) : AskBid F × Option Err :=
  match b.bind unmarshalStrings with
  | none => (t, some .json)
  | some out =>
    if out.length ≠ 3 then (t, some (.errorf "Invalid number of entries"))
    else
      let p0 := parseFloat (out.getD 0 "")
      let t1 := { t with Price := p0.1 }
      match p0.2 with
      | some err => (t1, some err)
      | none =>
        let p1 := parseFloat (out.getD 1 "")
        let t2 := { t1 with WholeLotVolume := p1.1 }
        match p1.2 with
        | some err => (t2, some err)
        | none =>
          let p2 := parseFloat (out.getD 2 "")
          let t3 := { t2 with LotVolume := p2.1 }
          match p2.2 with
          | some err => (t3, some err)
          | none => (t3, none)

/-- `PublicOrder.UnmarshalJSON`: a panic, or the receiver after the call and the returned
error. -/
def PublicOrder.UnmarshalJSON {F : Type} (parseFloat : String → F × Option Err)
    (t : PublicOrder F) (b : Raw F) : Except Panic (PublicOrder F × Option Err) :=
  match b.bind unmarshalSlice with
  | none => .ok (t, some .json)
  | some out => do
    let s0 ← index out 0 >>= asString
    let p0 := parseFloat s0
    let t1 := { t with Price := p0.1 }
    match p0.2 with
    | some err => pure (t1, some err)
    | none =>
      let s1 ← index out 1 >>= asString
      let p1 := parseFloat s1
      let t2 := { t1 with Volume := p1.1 }
      match p1.2 with
      | some err => pure (t2, some err)
      | none =>
        let x2 ← index out 2 >>= asFloat64
        pure ({ t2 with Time := x2 }, none)

/-! ## `public.go` and `private.go`: the decoders of the untyped results

Each `Api...` function below is the function of the source from the reply of `api.Query`
on: its argument `reply` is the pair `(resp, err)` that `Query` returned, with `resp` read
as a document. -/

/-- `OHLCEntry`. -/
structure OHLCEntry (F : Type) where
  Time : F
  Open : F
  High : F
  Low : F
  Close : F
  VWAP : F
  Volume : F
  Count : F

/-- `RecentTrade`; the field `Type` of the source is `Type_` here. -/
structure RecentTrade (F : Type) where
  Price : F
  Volume : F
  Time : F
  Type_ : String
  TradeType : String
  Misc : String

/-- `Spread`. -/
structure Spread (F : Type) where
  Time : F
  Bid : F
  Ask : F

/-- The type assertion `content.(map[string]interface{})` on the value returned by
`parse`. -/
def Dyn.asMap {F α : Type} : Dyn F α → Except Panic (List (String × JSON F))
  | .untyped j => Kraken.asMap j
  | .ptr _ => .error .typeAssertion

/-- The expression `strconv.ParseFloat(values[i].(string), 64)`. -/
def parseFloatAt {F : Type} (parseFloat : String → F × Option Err) (values : List (JSON F))
    (i : Nat) : Except Panic (F × Option Err) := do
  let s ← index values i >>= asString
  pure (parseFloat s)

/-- The body of the inner loop of `ApiOHLC` on one row: a panic, the error to return, or
the entry to append. -/
def ohlcEntry {F : Type} (parseFloat : String → F × Option Err) (subvalue : JSON F) :
    Except Panic (Except Err (OHLCEntry F)) := do
  let values ← asSlice subvalue
  let fopen ← parseFloatAt parseFloat values 1
  match fopen.2 with
  | some err => pure (.error err)
  | none =>
    let high ← parseFloatAt parseFloat values 2
    match high.2 with
    | some err => pure (.error err)
    | none =>
      let low ← parseFloatAt parseFloat values 3
      match low.2 with
      | some err => pure (.error err)
      | none =>
        let close ← parseFloatAt parseFloat values 4
        match close.2 with
        | some err => pure (.error err)
        | none =>
          let vwap ← parseFloatAt parseFloat values 5
          match vwap.2 with
          | some err => pure (.error err)
          | none =>
            let volume ← parseFloatAt parseFloat values 6
            match volume.2 with
            | some err => pure (.error err)
            | none =>
              let time ← index values 0 >>= asFloat64
              let count ← index values 7 >>= asFloat64
              pure (.ok
                { Time := time, Open := fopen.1, High := high.1, Low := low.1,
                  Close := close.1, VWAP := vwap.1, Volume := volume.1, Count := count })

/-- The inner loop of `ApiOHLC` over the rows of one pair; `ohlc_data` is the slice that
the entries are appended to. -/
def ohlcRows {F : Type} (parseFloat : String → F × Option Err) :
    List (JSON F) → List (OHLCEntry F) → Except Panic (Except Err (List (OHLCEntry F)))
  | [], ohlc_data => pure (.ok ohlc_data)
  | subvalue :: rest, ohlc_data => do
    match ← ohlcEntry parseFloat subvalue with
    | .error err => pure (.error err)
    | .ok entry => ohlcRows parseFloat rest (ohlc_data ++ [entry])

/-- The outer loop of `ApiOHLC` over the members of the result, followed by the final
`return last, ohlc_data, nil`. -/
def ohlcLoop {F : Type} [Zero F] (parseFloat : String → F × Option Err) :
    List (String × JSON F) → F → List (OHLCEntry F) →
      Except Panic (F × Option (List (OHLCEntry F)) × Option Err)
  | [], last, ohlc_data => pure (last, some ohlc_data, none)
  | (key, value) :: rest, last, ohlc_data =>
    if key = "last" then do
      let last1 ← asFloat64 value
      ohlcLoop parseFloat rest last1 ohlc_data
    else do
      let rows ← asSlice value
      match ← ohlcRows parseFloat rows ohlc_data with
      | .error err => pure (0, none, some err)
      | .ok ohlc_data1 => ohlcLoop parseFloat rest last ohlc_data1

/-- `ApiOHLC`. -/
def ApiOHLC {F : Type} [Zero F] (parseFloat : String → F × Option Err)
    (reply : Raw F × Option Err) :
    Except Panic (F × Option (List (OHLCEntry F)) × Option Err) :=
  match reply.2 with
  | some err => pure (0, none, some err)
  | none =>
    match parseNil reply.1 with
    | (_, some err) => pure (0, none, some err)
    | (content, none) => do
      let m ← Dyn.asMap content
      ohlcLoop parseFloat m 0 []

/-- The body of the inner loop of `ApiTrades` on one row. -/
def recentTrade {F : Type} (parseFloat : String → F × Option Err) (subvalue : JSON F) :
    Except Panic (Except Err (RecentTrade F)) := do
  let values ← asSlice subvalue
  let price ← parseFloatAt parseFloat values 0
  match price.2 with
  | some err => pure (.error err)
  | none =>
    let volume ← parseFloatAt parseFloat values 1
    match volume.2 with
    | some err => pure (.error err)
    | none =>
      let time ← index values 2 >>= asFloat64
      let type ← index values 3 >>= asString
      let tradeType ← index values 4 >>= asString
      let misc ← index values 5 >>= asString
      pure (.ok
        { Price := price.1, Volume := volume.1, Time := time, Type_ := type,
          TradeType := tradeType, Misc := misc })

/-- The inner loop of `ApiTrades` over the rows of one pair. -/
def tradesRows {F : Type} (parseFloat : String → F × Option Err) :
    List (JSON F) → List (RecentTrade F) → Except Panic (Except Err (List (RecentTrade F)))
  | [], trades => pure (.ok trades)
  | subvalue :: rest, trades => do
    match ← recentTrade parseFloat subvalue with
    | .error err => pure (.error err)
    | .ok trade => tradesRows parseFloat rest (trades ++ [trade])

/-- The loop of `ApiTrades` over the members of the result, followed by the final
`return out, last, err`.  The member `last` ends the loop (`break`). -/
def tradesLoop {F : Type} [Zero F] (parseFloat : String → F × Option Err) :
    List (String × JSON F) → F → GoMap (List (RecentTrade F)) →
      Except Panic (Option (GoMap (List (RecentTrade F))) × F × Option Err)
  | [], last, out => pure (some out, last, none)
  | (key, value) :: rest, last, out =>
    if key = "last" then do
      let s ← asString value
      let last1 := parseFloat s
      match last1.2 with
      | some err => pure (none, 0, some err)
      | none => pure (some out, last1.1, none)
    else do
      let rows ← asSlice value
      match ← tradesRows parseFloat rows [] with
      | .error err => pure (none, 0, some err)
      | .ok trades => tradesLoop parseFloat rest last (GoMap.set out key trades)

/-- `ApiTrades`. -/
def ApiTrades {F : Type} [Zero F] (parseFloat : String → F × Option Err)
    (reply : Raw F × Option Err) :
    Except Panic (Option (GoMap (List (RecentTrade F))) × F × Option Err) :=
  match reply.2 with
  | some err => pure (none, 0, some err)
  | none =>
    match parseNil reply.1 with
    | (_, some err) => pure (none, 0, some err)
    | (content, none) => do
      let m ← Dyn.asMap content
      tradesLoop parseFloat m 0 []

/-- The body of the inner loop of `ApiSpread` on one row: position 1 is parsed into the
variable `ask`, position 2 into the variable `bid`. -/
def spreadEntry {F : Type} (parseFloat : String → F × Option Err) (subvalue : JSON F) :
    Except Panic (Except Err (Spread F)) := do
  let values ← asSlice subvalue
  let ask ← parseFloatAt parseFloat values 1
  match ask.2 with
  | some err => pure (.error err)
  | none =>
    let bid ← parseFloatAt parseFloat values 2
    match bid.2 with
    | some err => pure (.error err)
    | none =>
      let time ← index values 0 >>= asFloat64
      pure (.ok { Time := time, Ask := ask.1, Bid := bid.1 })

/-- The inner loop of `ApiSpread` over the rows of one pair. -/
def spreadRows {F : Type} (parseFloat : String → F × Option Err) :
    List (JSON F) → List (Spread F) → Except Panic (Except Err (List (Spread F)))
  | [], spreads => pure (.ok spreads)
  | subvalue :: rest, spreads => do
    match ← spreadEntry parseFloat subvalue with
    | .error err => pure (.error err)
    | .ok spread => spreadRows parseFloat rest (spreads ++ [spread])

/-- The loop of `ApiSpread` over the members of the result, followed by the final
`return out, last, nil`.  The member `last` is skipped (`continue`). -/
def spreadLoop {F : Type} [Zero F] (parseFloat : String → F × Option Err) :
    List (String × JSON F) → F → GoMap (List (Spread F)) →
      Except Panic (Option (GoMap (List (Spread F))) × F × Option Err)
  | [], last, out => pure (some out, last, none)
  | (key, value) :: rest, last, out =>
    if key = "last" then do
      let last1 ← asFloat64 value
      spreadLoop parseFloat rest last1 out
    else do
      let rows ← asSlice value
      match ← spreadRows parseFloat rows [] with
      | .error err => pure (none, 0, some err)
      | .ok spreads => spreadLoop parseFloat rest last (GoMap.set out key spreads)

/-- `ApiSpread`. -/
def ApiSpread {F : Type} [Zero F] (parseFloat : String → F × Option Err)
    (reply : Raw F × Option Err) :
    Except Panic (Option (GoMap (List (Spread F))) × F × Option Err) :=
  match reply.2 with
  | some err => pure (none, 0, some err)
  | none =>
    match parseNil reply.1 with
    | (_, some err) => pure (none, 0, some err)
    | (content, none) => do
      let m ← Dyn.asMap content
      spreadLoop parseFloat m 0 []

/-- The loop of `ApiBalance` over the members of the result, followed by the final
`return balance, nil`.  On a parse error the loop returns `balance, err`. -/
def balanceLoop {F : Type} (parseFloat : String → F × Option Err) :
    List (String × JSON F) → GoMap F → Except Panic (Option (GoMap F) × Option Err)
  | [], balance => pure (some balance, none)
  | (v, r) :: rest, balance => do
    let s ← asString r
    let value := parseFloat s
    match value.2 with
    | some err => pure (some balance, some err)
    | none => balanceLoop parseFloat rest (GoMap.set balance v value.1)

/-- `ApiBalance`. -/
def ApiBalance {F : Type} (parseFloat : String → F × Option Err)
    (reply : Raw F × Option Err) : Except Panic (Option (GoMap F) × Option Err) :=
  match reply.2 with
  | some err => pure (none, some err)
  | none =>
    match parseNil reply.1 with
    | (_, some err) => pure (none, some err)
    | (content, none) => do
      let m ← Dyn.asMap content
      balanceLoop parseFloat m []

/-! ## `kraken-api.go` and `client.go`: `Query` -/

/-- `KrakenApi`, without its `*http.Client`. -/
structure KrakenApi where
  Key : String
  secret : String
  ApiRoot : String
  UserAgent : String

/-- `ApiClient`, without its `*http.Client`. -/
structure ApiClient where
  Key : String
  secret : String
  ApiRoot : String
  UserAgent : String

/-- The arguments of a call `executeHttpQuery(method, url, headers, params)`. -/
structure Request where
  method : String
  url : String
  headers : GoMap String
  params : Values
  deriving DecidableEq, Repr

/-- The body shared by `KrakenApi.Query` and `ApiClient.Query`, up to the call of the
transport: the request they hand to `executeHttpQuery`.  `now` is the value of
`time.Now().UnixNano()`. -/
def queryRequest (c : Crypto) (now : Int) (key secret apiRoot userAgent : String)
    (url_path : String) (params : Values) (with_signature : Bool) : Request :=
  let headers : GoMap String := []
  let method := "GET"
  let signed : GoMap String × String × Values :=
    if with_signature then
      let secretBytes := (c.decodeString secret).1
      let params1 := Values.Set params "nonce" (toString now)
      let signature := createKrakenSignature c url_path params1 secretBytes
      (GoMap.set (GoMap.set headers "API-Key" key) "API-Sign" signature, "POST", params1)
    else (headers, method, params)
  let headers1 :=
    if userAgent ≠ "" then GoMap.set signed.1 "User-Agent" userAgent else signed.1
  let headers2 := GoMap.set headers1 "Content-Type" "application/x-www-form-urlencoded"
  { method := signed.2.1, url := apiRoot ++ url_path, headers := headers2,
    params := signed.2.2 }

/-- `KrakenApi.Query`.  `executeHttpQuery` is the transport of the repository, whose source
is not part of the files at hand. -/
def KrakenApi.Query (c : Crypto) (executeHttpQuery : Request → Bytes × Option Err)
    (now : Int) (api : KrakenApi) (url_path : String) (params : Values)
    (with_signature : Bool) : Bytes × Option Err :=
  executeHttpQuery
    (queryRequest c now api.Key api.secret api.ApiRoot api.UserAgent url_path params
      with_signature)

/-- `ApiClient.Query`. -/
def ApiClient.Query (c : Crypto) (executeHttpQuery : Request → Bytes × Option Err)
    (now : Int) (api : ApiClient) (url_path : String) (params : Values)
    (with_signature : Bool) : Bytes × Option Err :=
  executeHttpQuery
    (queryRequest c now api.Key api.secret api.ApiRoot api.UserAgent url_path params
      with_signature)

/-! ## Stand-ins for the libraries, used to evaluate the definitions on examples -/

/-- A stand-in for `strconv.ParseFloat` on the type `Int`: a non-empty string of decimal
digits is parsed to its value, any other string is an error with the value 0 (as
`ParseFloat` returns on a string that is no number). -/
def parseDigits (s : String) : Int × Option Err :=
  if s.data ≠ [] ∧ s.data.all Char.isDigit then
    (Int.ofNat (s.data.foldl (fun n c => 10 * n + (c.toNat - 48)) 0), none)
  else (0, some (.numError s))

/-- A stand-in for the library functions of `Crypto`: each one keeps its arguments
visible, and the base64 decoder rejects a string that contains a character outside the
base64 alphabet, reporting the offset of the first one and no decoded byte. -/
def plainCrypto : Crypto where
  sha256Sum := fun input => 256 :: input
  hmacSha512Sum := fun key message => 512 :: key ++ 0 :: message
  encodeToString := fun b => String.mk (b.map Char.ofNat)
  decodeString := fun s =>
    match s.data.findIdx? (fun ch => !(ch.isAlphanum || ch = '+' || ch = '/' || ch = '=')) with
    | some i => ([], some (.corruptInput i))
    | none => (utf8 s, none)

/-! ## Well-formed payloads, used to state the decoding theorems -/

/-- A well-formed OHLC row: a number, six strings, a number. -/
structure OHLCRow (F : Type) where
  time : F
  fopen : String
  high : String
  low : String
  close : String
  vwap : String
  volume : String
  count : F

/-- The 8-position JSON array of a row. -/
def OHLCRow.toJSON {F : Type} (r : OHLCRow F) : JSON F :=
  .arr [.num r.time, .str r.fopen, .str r.high, .str r.low, .str r.close, .str r.vwap,
    .str r.volume, .num r.count]

/-- The six strings of the row are numeric: `strconv.ParseFloat` reports no error on
them. -/
def OHLCRow.numeric {F : Type} (parseFloat : String → F × Option Err) (r : OHLCRow F) : Prop :=
  (parseFloat r.fopen).2 = none ∧ (parseFloat r.high).2 = none ∧ (parseFloat r.low).2 = none
    ∧ (parseFloat r.close).2 = none ∧ (parseFloat r.vwap).2 = none
    ∧ (parseFloat r.volume).2 = none

instance {F : Type} (parseFloat : String → F × Option Err) (r : OHLCRow F) :
    Decidable (r.numeric parseFloat) := by
  unfold OHLCRow.numeric
  infer_instance

/-- The entry a row stands for: positions 0 to 7 in the order Time, Open, High, Low, Close,
VWAP, Volume, Count. -/
def OHLCRow.entry {F : Type} (parseFloat : String → F × Option Err) (r : OHLCRow F) :
    OHLCEntry F :=
  { Time := r.time, Open := (parseFloat r.fopen).1, High := (parseFloat r.high).1,
    Low := (parseFloat r.low).1, Close := (parseFloat r.close).1,
    VWAP := (parseFloat r.vwap).1, Volume := (parseFloat r.volume).1, Count := r.count }

/-- The members of an OHLC result for the given pairs: each pair key is mapped to the array
of its rows. -/
def ohlcPairs {F : Type} (pairs : List (String × List (OHLCRow F))) :
    List (String × JSON F) :=
  pairs.map (fun p => (p.1, JSON.arr (p.2.map OHLCRow.toJSON)))


/-- The members of an envelope with an empty error array and no result: every member is
either `"error": []` or a member that is neither the error nor the result field. -/
def emptyEnvelope {F : Type} (ms : List (String × JSON F)) : Prop :=
  ∀ m ∈ ms, (m.1 = "error" ∧ m.2 = .arr [])
    ∨ (equalFold m.1 "error" = false ∧ equalFold m.1 "result" = false)

/-! ## Malformed replies, used to state the error theorems -/

/-- The value is a JSON array all of whose elements are strings. -/
def isStringArray {F : Type} (v : JSON F) : Prop :=
  ∃ strs : List String, v = .arr (strs.map .str)

/-- The inputs of `parse` that are no response envelope: bytes that are not valid JSON, a
JSON boolean, number, string or array, and a JSON object whose error member (the last member
whose key matches `error`) is neither `null` nor an array of strings. -/
inductive Malformed {F : Type} : Raw F → Prop where
  | invalid : Malformed none
  | bool (b : Bool) : Malformed (some (.bool b))
  | num (x : F) : Malformed (some (.num x))
  | str (s : String) : Malformed (some (.str s))
  | arr (xs : List (JSON F)) : Malformed (some (.arr xs))
  | errorMember (before : List (String × JSON F)) (key : String) (v : JSON F)
      (after : List (String × JSON F)) (hkey : equalFold key "error" = true)
      (hlast : ∀ m ∈ after, equalFold m.1 "error" = false)
      (hnull : v ≠ .null) (hstrings : ¬ isStringArray v) :
      Malformed (some (.obj (before ++ (key, v) :: after)))

/-! ## `types.go`: the two-entry tuple decoders -/

/-- `TradeToday`. -/
structure TradeToday (F : Type) where
  Price : F
  Volume : F

/-- `TodayH24Float64`, the array type `[2]float64`: the pair of `t[0]` (today) and `t[1]`
(last 24 hours). -/
abbrev TodayH24Float64 (F : Type) := F × F

/-- `TradeToday.UnmarshalJSON`: the receiver after the call and the returned error. -/
def TradeToday.UnmarshalJSON {F : Type} (parseFloat : String → F × Option Err)
    (t : TradeToday F) (b : Raw F) : TradeToday F × Option Err :=
  match b.bind unmarshalStrings with
  | none => (t, some .json)
  | some out =>
    if out.length ≠ 2 then (t, some (.errorf "Invalid number of entries"))
    else
      let p0 := parseFloat (out.getD 0 "")
      let t1 := { t with Price := p0.1 }
      match p0.2 with
      | some err => (t1, some err)
      | none =>
        let p1 := parseFloat (out.getD 1 "")
        let t2 := { t1 with Volume := p1.1 }
        match p1.2 with
        | some err => (t2, some err)
        | none => (t2, none)

/-- `TodayH24Float64.UnmarshalJSON`: the receiver after the call and the returned error. -/
def TodayH24Float64.UnmarshalJSON {F : Type} (parseFloat : String → F × Option Err)
    (t : TodayH24Float64 F) (b : Raw F) : TodayH24Float64 F × Option Err :=
  match b.bind unmarshalStrings with
  | none => (t, some .json)
  | some out =>
    if out.length ≠ 2 then (t, some (.errorf "Invalid number of entries"))
    else
      let p0 := parseFloat (out.getD 0 "")
      let t1 : TodayH24Float64 F := (p0.1, t.2)
      match p0.2 with
      | some err => (t1, some err)
      | none =>
        let p1 := parseFloat (out.getD 1 "")
        let t2 : TodayH24Float64 F := (t1.1, p1.1)
        match p1.2 with
        | some err => (t2, some err)
        | none => (t2, none)

/-- A well-formed recent-trades row: two strings, a number, three strings. -/
structure TradeRow (F : Type) where
  price : String
  volume : String
  time : F
  type_ : String
  tradeType : String
  misc : String

/-- The 6-position JSON array of a row. -/
def TradeRow.toJSON {F : Type} (r : TradeRow F) : JSON F :=
  .arr [.str r.price, .str r.volume, .num r.time, .str r.type_, .str r.tradeType,
    .str r.misc]

/-- The two leading strings of the row are numeric. -/
def TradeRow.numeric {F : Type} (parseFloat : String → F × Option Err) (r : TradeRow F) : Prop :=
  (parseFloat r.price).2 = none ∧ (parseFloat r.volume).2 = none

instance {F : Type} (parseFloat : String → F × Option Err) (r : TradeRow F) :
    Decidable (r.numeric parseFloat) := by
  unfold TradeRow.numeric
  infer_instance

/-- The trade a row stands for: positions 0 to 5 in the order Price, Volume, Time, Type,
TradeType, Misc. -/
def TradeRow.trade {F : Type} (parseFloat : String → F × Option Err) (r : TradeRow F) :
    RecentTrade F :=
  { Price := (parseFloat r.price).1, Volume := (parseFloat r.volume).1, Time := r.time,
    Type_ := r.type_, TradeType := r.tradeType, Misc := r.misc }

/-- The members of a recent-trades result for the given pairs. -/
def tradePairs {F : Type} (pairs : List (String × List (TradeRow F))) :
    List (String × JSON F) :=
  pairs.map (fun p => (p.1, JSON.arr (p.2.map TradeRow.toJSON)))

/-- The output map of `ApiTrades` after the given pairs have been visited, starting from
`out`. -/
def tradesOut {F : Type} (parseFloat : String → F × Option Err) :
    List (String × List (TradeRow F)) → GoMap (List (RecentTrade F)) →
      GoMap (List (RecentTrade F))
  | [], out => out
  | p :: rest, out =>
    tradesOut parseFloat rest (GoMap.set out p.1 (p.2.map (TradeRow.trade parseFloat)))

/-! ## `encoding/json` on tagged structs, `TradeBalance` and `ApiTradeBalance` -/

/-- One field of a Go struct as `encoding/json` sees it: the JSON name given by its tag, and
the decoding of a JSON value into the field (`none` is an error). -/
structure Field (F σ : Type) where
  name : String
  store : JSON F → σ → Option σ

/-- The fields that `encoding/json` keeps for a struct without embedded fields whose fields
are all tagged: when several fields carry the same JSON name, none of them is dominant and
all of them are dropped, without error. -/
def dominantFields {F σ : Type} (fields : List (Field F σ)) : List (Field F σ) :=
  fields.filter (fun f => (fields.filter (fun g => g.name = f.name)).length = 1)

/-- The field that decodes the member `key`: the one whose name is `key`, or else the first
one whose (lower-case) name matches `key` case-insensitively. -/
def findField {F σ : Type} (fields : List (Field F σ)) (key : String) : Option (Field F σ) :=
  match fields.find? (fun f => f.name = key) with
  | some f => some f
  | none => fields.find? (fun f => equalFold key f.name)

/-- Decoding of the members of a JSON object into a struct: a member with a field is stored
through it, a member without one is skipped. -/
def decodeFields {F σ : Type} (fields : List (Field F σ)) :
    List (String × JSON F) → σ → Option σ
  | [], s => some s
  | (key, value) :: rest, s =>
    match findField fields key with
    | none => decodeFields fields rest s
    | some f =>
      match f.store value s with
      | some s1 => decodeFields fields rest s1
      | none => none

/-- The first byte of a JSON number: `-` or a digit. -/
def startsNumber (s : String) : Bool :=
  match s.data with
  | [] => false
  | ch :: _ => ch = '-' || ch.isDigit

/-- Decoding of a JSON value into a `float64` field tagged `,string`: `null` and the string
`"null"` leave the field as it is, a string that starts like a number is handed to
`strconv.ParseFloat`, and every other value is an error. -/
def quotedFloat {F : Type} (parseFloat : String → F × Option Err) (v : JSON F) (old : F) :
    Option F :=
  match v with
  | .null => some old
  | .str s =>
    if s = "null" then some old
    else if startsNumber s then
      match (parseFloat s).2 with
      | none => some (parseFloat s).1
      | some _ => none
    else none
  | _ => none

/-- `TradeBalance`. -/
structure TradeBalance (F : Type) where
  Eb : F
  Tb : F
  M : F
  N : F
  C : F
  V : F
  E : F
  Mf : F
  Ml : F

/-- The fields of `TradeBalance` with the JSON names of their tags, in the order of the
source; each one is a `float64` tagged `,string`.  The fields `V` and `E` both carry the
name `v`. -/
def tradeBalanceFields {F : Type} (parseFloat : String → F × Option Err) :
    List (Field F (TradeBalance F)) :=
  [ ⟨"eb", fun v t => (quotedFloat parseFloat v t.Eb).map (fun x => { t with Eb := x })⟩,
    ⟨"tb", fun v t => (quotedFloat parseFloat v t.Tb).map (fun x => { t with Tb := x })⟩,
    ⟨"m", fun v t => (quotedFloat parseFloat v t.M).map (fun x => { t with M := x })⟩,
    ⟨"n", fun v t => (quotedFloat parseFloat v t.N).map (fun x => { t with N := x })⟩,
    ⟨"c", fun v t => (quotedFloat parseFloat v t.C).map (fun x => { t with C := x })⟩,
    ⟨"v", fun v t => (quotedFloat parseFloat v t.V).map (fun x => { t with V := x })⟩,
    ⟨"v", fun v t => (quotedFloat parseFloat v t.E).map (fun x => { t with E := x })⟩,
    ⟨"mf", fun v t => (quotedFloat parseFloat v t.Mf).map (fun x => { t with Mf := x })⟩,
    ⟨"ml", fun v t => (quotedFloat parseFloat v t.Ml).map (fun x => { t with Ml := x })⟩ ]

/-- Decoding `json.Unmarshal` into a `TradeBalance`. -/
def unmarshalTradeBalance {F : Type} (parseFloat : String → F × Option Err) :
    JSON F → TradeBalance F → Option (TradeBalance F) :=
  unmarshalStruct (decodeFields (dominantFields (tradeBalanceFields parseFloat)))

/-- The type assertion `content.(*T)` on the value returned by `parse`, for the type `T`
of the pointer that was passed as `struct_type`. -/
def Dyn.asPtr {F α : Type} : Dyn F α → Except Panic α
  | .ptr target => .ok target
  | .untyped _ => .error .typeAssertion

/-- `ApiTradeBalance`, from the reply of `api.Query` on. -/
def ApiTradeBalance {F : Type} [Zero F] (parseFloat : String → F × Option Err)
    (reply : Raw F × Option Err) : Except Panic (Option (TradeBalance F) × Option Err) :=
  match reply.2 with
  | some err => pure (none, some err)
  | none =>
    match parse (unmarshalTradeBalance parseFloat) reply.1
        (some ({ Eb := 0, Tb := 0, M := 0, N := 0, C := 0, V := 0, E := 0, Mf := 0, Ml := 0 }
          : TradeBalance F)) with
    | (_, some err) => pure (none, some err)
    | (content, none) => do
      let balance ← Dyn.asPtr content
      pure (some balance, none)

/-! ## `orders.go`: the parameters of `ApiAddOrder` -/

/-- The parameter set that `ApiAddOrder` builds and hands to
`api.Query(URL_PRIVATE_ADD_ORDER, params, true)`.  `formatFloat` is
`strconv.FormatFloat(_, 'f', -1, 64)`; the test `x ≠ 0` is the comparison `x != 0` of
`float64`. -/
def ApiAddOrder.params {F : Type} [Zero F] [DecidableEq F] (formatFloat : F → String)
    (pair bstype ordertype : String) (price price2 volume : F) (oflags : String) : Values :=
  let params0 : Values := []
  let params1 := Values.Set params0 "pair" pair
  let params2 := Values.Set params1 "type" bstype
  let params3 := Values.Set params2 "ordertype" ordertype
  let params4 :=
    if ordertype ≠ "market" then Values.Set params3 "price" (formatFloat price) else params3
  let params5 := Values.Set params4 "volume" (formatFloat volume)
  let params6 :=
    if price2 ≠ 0 then Values.Set params5 "price2" (formatFloat price) else params5
  let params7 := if oflags ≠ "" then Values.Set params6 "oflags" oflags else params6
  params7

/-- A stand-in for `strconv.FormatFloat(_, 'f', -1, 64)` on the type `Int`: the decimal
form of the integer. -/
def formatDigits (x : Int) : String :=
  toString x

/-! ## `CancelResult`, `TradeVolume` and their wrappers -/

/-- The folded form of a JSON name.  An untagged field takes its Go name as JSON name, and
`encoding/json` matches it with a key case-insensitively, that is by folded forms. -/
def foldName (s : String) : String :=
  ⟨s.data.map foldChar⟩

/-- Decoding of a JSON value into an `int` field: a number is stored when its literal is an
integer of the range of `int` (`toInt`), `null` leaves the field as it is, any other value
is an error. -/
def storeInt {F : Type} (toInt : F → Option Int) (v : JSON F) (old : Int) : Option Int :=
  match v with
  | .null => some old
  | .num x => toInt x
  | _ => none

/-- Decoding of a JSON value into a `bool` field. -/
def storeBool {F : Type} (v : JSON F) (old : Bool) : Option Bool :=
  match v with
  | .null => some old
  | .bool b => some b
  | _ => none

/-- Decoding of a JSON value into a `string` field. -/
def storeString {F : Type} (v : JSON F) (old : String) : Option String :=
  match v with
  | .null => some old
  | .str s => some s
  | _ => none

/-- `CancelResult`. -/
structure CancelResult where
  Count : Int
  IsPending : Bool
  deriving DecidableEq, Repr

/-- The fields of `CancelResult`.  Neither field has a tag, so that their JSON names are the
Go names `Count` and `IsPending`. -/
def cancelResultFields {F : Type} (toInt : F → Option Int) : List (Field F CancelResult) :=
  [ ⟨foldName "Count", fun v t => (storeInt toInt v t.Count).map (fun x => { t with Count := x })⟩,
    ⟨foldName "IsPending",
      fun v t => (storeBool v t.IsPending).map (fun x => { t with IsPending := x })⟩ ]

/-- Decoding `json.Unmarshal` into a `CancelResult`. -/
def unmarshalCancelResult {F : Type} (toInt : F → Option Int) :
    JSON F → CancelResult → Option CancelResult :=
  unmarshalStruct (decodeFields (dominantFields (cancelResultFields toInt)))

/-- `ApiCancelOrder`, from the reply of `api.Query` on. -/
def ApiCancelOrder {F : Type} (toInt : F → Option Int) (reply : Raw F × Option Err) :
    Except Panic (Option CancelResult × Option Err) :=
  match reply.2 with
  | some err => pure (none, some err)
  | none =>
    match parse (unmarshalCancelResult toInt) reply.1
        (some ({ Count := 0, IsPending := false } : CancelResult)) with
    | (_, some err) => pure (none, some err)
    | (content, none) => do
      let result ← Dyn.asPtr content
      pure (some result, none)

/-- `TradeVolumeFee`. -/
structure TradeVolumeFee (F : Type) where
  Fee : F
  Minfee : F
  Maxfee : F
  Nextfee : F
  Nextvolume : F
  Tiervolume : F

/-- The fields of `TradeVolumeFee` with the JSON names of their tags; each one is a
`float64` tagged `,string`. -/
def tradeVolumeFeeFields {F : Type} (parseFloat : String → F × Option Err) :
    List (Field F (TradeVolumeFee F)) :=
  [ ⟨"fee", fun v t => (quotedFloat parseFloat v t.Fee).map (fun x => { t with Fee := x })⟩,
    ⟨"minfee",
      fun v t => (quotedFloat parseFloat v t.Minfee).map (fun x => { t with Minfee := x })⟩,
    ⟨"maxfee",
      fun v t => (quotedFloat parseFloat v t.Maxfee).map (fun x => { t with Maxfee := x })⟩,
    ⟨"nextfee",
      fun v t => (quotedFloat parseFloat v t.Nextfee).map (fun x => { t with Nextfee := x })⟩,
    ⟨"nextvolume",
      fun v t =>
        (quotedFloat parseFloat v t.Nextvolume).map (fun x => { t with Nextvolume := x })⟩,
    ⟨"tiervolume",
      fun v t =>
        (quotedFloat parseFloat v t.Tiervolume).map (fun x => { t with Tiervolume := x })⟩ ]

/-- Decoding of one element of a `map[string]TradeVolumeFee`, into a fresh zero value:
`null` leaves it zero, an object is decoded field by field, any other value is an error. -/
def unmarshalTradeVolumeFee {F : Type} [Zero F] (parseFloat : String → F × Option Err)
    (v : JSON F) : Option (TradeVolumeFee F) :=
  let zero : TradeVolumeFee F :=
    { Fee := 0, Minfee := 0, Maxfee := 0, Nextfee := 0, Nextvolume := 0, Tiervolume := 0 }
  match v with
  | .null => some zero
  | .obj ms => decodeFields (dominantFields (tradeVolumeFeeFields parseFloat)) ms zero
  | _ => none

/-- Decoding of the members of a JSON object into a `map[string]TradeVolumeFee`. -/
def decodeFeeEntries {F : Type} [Zero F] (parseFloat : String → F × Option Err) :
    List (String × JSON F) → GoMap (TradeVolumeFee F) → Option (GoMap (TradeVolumeFee F))
  | [], m => some m
  | (key, value) :: rest, m =>
    match unmarshalTradeVolumeFee parseFloat value with
    | some fee => decodeFeeEntries parseFloat rest (GoMap.set m key fee)
    | none => none

/-- Decoding of a JSON value into a field of type `map[string]TradeVolumeFee` (`none` is the
nil map): `null` stores the nil map, an object adds its members to the map, any other value
is an error. -/
def storeFeeMap {F : Type} [Zero F] (parseFloat : String → F × Option Err) (v : JSON F)
    (old : Option (GoMap (TradeVolumeFee F))) : Option (Option (GoMap (TradeVolumeFee F))) :=
  match v with
  | .null => some none
  | .obj ms => (decodeFeeEntries parseFloat ms (old.getD [])).map some
  | _ => none

/-- `TradeVolume`. -/
structure TradeVolume (F : Type) where
  Currency : String
  Volume : F
  Fees : Option (GoMap (TradeVolumeFee F))
  FeesMaker : Option (GoMap (TradeVolumeFee F))

/-- The fields of `TradeVolume` with the JSON names of their tags, as the source spells
them: `cuurrency`, `volume` (tagged `,string`), `fees`, `fees_maker`. -/
def tradeVolumeFields {F : Type} [Zero F] (parseFloat : String → F × Option Err) :
    List (Field F (TradeVolume F)) :=
  [ ⟨"cuurrency",
      fun v t => (storeString v t.Currency).map (fun x => { t with Currency := x })⟩,
    ⟨"volume",
      fun v t => (quotedFloat parseFloat v t.Volume).map (fun x => { t with Volume := x })⟩,
    ⟨"fees", fun v t => (storeFeeMap parseFloat v t.Fees).map (fun x => { t with Fees := x })⟩,
    ⟨"fees_maker",
      fun v t =>
        (storeFeeMap parseFloat v t.FeesMaker).map (fun x => { t with FeesMaker := x })⟩ ]

/-- Decoding `json.Unmarshal` of a value that is not null through the pointer `out` of type
`*TradeVolume` (`none` is the nil pointer): an object is decoded into the value `out` points
to, allocated first when `out` is nil; any other value is an error. -/
def unmarshalTradeVolume {F : Type} [Zero F] (parseFloat : String → F × Option Err)
    (v : JSON F) (out : Option (TradeVolume F)) : Option (Option (TradeVolume F)) :=
  match v with
  | .obj ms =>
    (decodeFields (dominantFields (tradeVolumeFields parseFloat)) ms
      (out.getD { Currency := "", Volume := 0, Fees := none, FeesMaker := none })).map some
  | _ => none

/-- `ApiTradeVolume`, from the reply of `api.Query` on: the pointer `out` and the error it
returns.  The function passes `&out` to `parse`, ignores the value `parse` returns, and
returns `out`.  For a pointer to a pointer `encoding/json` stores nil in `out` on a `result`
member that is `null`; this is the case in which `parse` of this file yields the nil
interface, and the function returns the nil pointer then. -/
def ApiTradeVolume {F : Type} [Zero F] (parseFloat : String → F × Option Err)
    (reply : Raw F × Option Err) : Option (TradeVolume F) × Option Err :=
  match reply.2 with
  | some err => (none, some err)
  | none =>
    match parse (unmarshalTradeVolume parseFloat) reply.1
        (some (some { Currency := "", Volume := 0, Fees := none, FeesMaker := none })) with
    | (_, some err) => (none, some err)
    | (.ptr out, none) => (out, none)
    | (.untyped _, none) => (none, none)

/-! ## The paths of `kraken-api.go` and the `Query` call of each endpoint wrapper -/

def URL_PUBLIC_TIME : String := "/0/public/Time"

def URL_PUBLIC_ASSETS : String := "/0/public/Assets"

def URL_PUBLIC_ASSET_PAIRS : String := "/0/public/AssetPairs"

def URL_PUBLIC_TICKER : String := "/0/public/Ticker"

def URL_PUBLIC_OHLC : String := "/0/public/OHLC"

def URL_PUBLIC_ORDER_BOOK : String := "/0/public/Depth"

def URL_PUBLIC_RECENT_TRADES : String := "/0/public/Trades"

def URL_PUBLIC_SPREAD : String := "/0/public/Spread"

def URL_PRIVATE_BALANCE : String := "/0/private/Balance"

def URL_PRIVATE_TRADE_BALANCE : String := "/0/private/TradeBalance"

def URL_PRIVATE_OPEN_ORDERS : String := "/0/private/OpenOrders"

def URL_PRIVATE_CLOSED_ORDERS : String := "/0/private/ClosedOrders"

def URL_PRIVATE_QUERY_ORDERS : String := "/0/private/QueryOrders"

def URL_PRIVATE_TRADES_HISTORY : String := "/0/private/TradesHistory"

def URL_PRIVATE_QUERY_TRADES : String := "/0/private/QueryTrades"

def URL_PRIVATE_OPEN_POSITIONS : String := "/0/private/OpenPositions"

def URL_PRIVATE_LEDGERS : String := "/0/private/Ledgers"

def URL_PRIVATE_QUERY_LEDGERS : String := "/0/private/QueryLedgers"

def URL_PRIVATE_TRADE_VOLUME : String := "/0/private/TradeVolume"

def URL_PRIVATE_ADD_ORDER : String := "/0/private/AddOrder"

def URL_PRIVATE_CANCEL_ORDER : String := "/0/private/CancelOrder"

/-- The endpoint wrappers of `public.go`, `private.go` and `orders.go`: the functions that
call `api.Query`. -/
inductive Wrapper where
  | ApiServerTime
  | ApiAssets
  | ApiAssetPairs
  | ApiTicker
  | ApiOHLC
  | ApiDepth
  | ApiTrades
  | ApiSpread
  | ApiBalance
  | ApiTradeBalance
  | ApiOpenOrders
  | ApiClosedOrders
  | ApiQueryOrders
  | ApiTradesHistory
  | ApiQueryTrades
  | ApiOpenPositions
  | ApiLedgers
  | ApiQueryLedgers
  | ApiTradeVolume
  | ApiAddOrder
  | ApiCancelOrder
  deriving DecidableEq, Repr

/-- The one call `api.Query(url_path, params, with_signature)` of each wrapper: its path
and its flag, as written in the source. -/
def Wrapper.queryCall : Wrapper → String × Bool
  | .ApiServerTime => (URL_PUBLIC_TIME, false)
  | .ApiAssets => (URL_PUBLIC_ASSETS, false)
  | .ApiAssetPairs => (URL_PUBLIC_ASSET_PAIRS, false)
  | .ApiTicker => (URL_PUBLIC_TICKER, false)
  | .ApiOHLC => (URL_PUBLIC_OHLC, false)
  | .ApiDepth => (URL_PUBLIC_ORDER_BOOK, false)
  | .ApiTrades => (URL_PUBLIC_RECENT_TRADES, false)
  | .ApiSpread => (URL_PUBLIC_SPREAD, false)
  | .ApiBalance => (URL_PRIVATE_BALANCE, true)
  | .ApiTradeBalance => (URL_PRIVATE_TRADE_BALANCE, true)
  | .ApiOpenOrders => (URL_PRIVATE_OPEN_ORDERS, true)
  | .ApiClosedOrders => (URL_PRIVATE_CLOSED_ORDERS, true)
  | .ApiQueryOrders => (URL_PRIVATE_QUERY_ORDERS, true)
  | .ApiTradesHistory => (URL_PRIVATE_TRADES_HISTORY, true)
  | .ApiQueryTrades => (URL_PRIVATE_QUERY_TRADES, true)
  | .ApiOpenPositions => (URL_PRIVATE_OPEN_POSITIONS, true)
  | .ApiLedgers => (URL_PRIVATE_LEDGERS, true)
  | .ApiQueryLedgers => (URL_PRIVATE_QUERY_LEDGERS, true)
  | .ApiTradeVolume => (URL_PRIVATE_TRADE_VOLUME, true)
  | .ApiAddOrder => (URL_PRIVATE_ADD_ORDER, true)
  | .ApiCancelOrder => (URL_PRIVATE_CANCEL_ORDER, true)

/-- The path lies under the directory `dir`: it starts with the characters of `dir`. -/
def pathUnder (dir path : String) : Bool :=
  dir.data.isPrefixOf path.data

/-! ## Results of the expected JSON kinds, used to state the no-panic theorem -/

/-- A spread row of the expected kinds: a number and two strings, `[time, bid, ask]`. -/
structure SpreadRow (F : Type) where
  time : F
  bid : String
  ask : String

/-- The 3-position JSON array of a row. -/
def SpreadRow.toJSON {F : Type} (r : SpreadRow F) : JSON F :=
  .arr [.num r.time, .str r.bid, .str r.ask]

/-- Every value of the balance result is a JSON string. -/
def balanceKinds {F : Type} (ms : List (String × JSON F)) : Prop :=
  ∀ m ∈ ms, ∃ s : String, m.2 = .str s

/-- The member `last` of the OHLC result is a number, and every other member is an array of
rows of the kinds number, six strings, number. -/
def ohlcKinds {F : Type} (ms : List (String × JSON F)) : Prop :=
  ∀ m ∈ ms, (m.1 = "last" ∧ ∃ x : F, m.2 = .num x)
    ∨ (m.1 ≠ "last" ∧ ∃ rows : List (OHLCRow F), m.2 = .arr (rows.map OHLCRow.toJSON))

/-- The member `last` of the recent-trades result is a string, and every other member is an
array of rows of the kinds two strings, number, three strings. -/
def tradesKinds {F : Type} (ms : List (String × JSON F)) : Prop :=
  ∀ m ∈ ms, (m.1 = "last" ∧ ∃ s : String, m.2 = .str s)
    ∨ (m.1 ≠ "last" ∧ ∃ rows : List (TradeRow F), m.2 = .arr (rows.map TradeRow.toJSON))

/-- The member `last` of the spread result is a number, and every other member is an array
of rows of the kinds number, two strings. -/
def spreadKinds {F : Type} (ms : List (String × JSON F)) : Prop :=
  ∀ m ∈ ms, (m.1 = "last" ∧ ∃ x : F, m.2 = .num x)
    ∨ (m.1 ≠ "last" ∧ ∃ rows : List (SpreadRow F), m.2 = .arr (rows.map SpreadRow.toJSON))

/-! ## Decimal digits -/

/-- The number that a list of decimal digits denotes. -/
def digitsValue (cs : List Char) : Nat :=
  cs.foldl (fun acc ch => 10 * acc + (ch.toNat - 48)) 0

/-! ## The bytes of UTF-8 -/

/-- The bytes of the UTF-8 encoding of the code point `v`. -/
def utf8Bytes (v : Nat) : List Nat :=
  if v ≤ 127 then [v]
  else if v ≤ 2047 then [192 + v / 64 % 32, 128 + v % 64]
  else if v ≤ 65535 then [224 + v / 4096 % 16, 128 + v / 64 % 64, 128 + v % 64]
  else [240 + v / 262144 % 8, 128 + v / 4096 % 64, 128 + v / 64 % 64, 128 + v % 64]

/-- A continuation byte of UTF-8. -/
def isContinuation (b : Nat) : Prop := 128 ≤ b ∧ b < 192

/-! ## Theorems -/

/-! ### `url.Values` and the signature -/

/-- The encoding sorts the parameters by key. -/
theorem Encode_sorts_keys :
    Values.Encode [("pair", ["XXBTZEUR"]), ("nonce", ["17"])] = "nonce=17&pair=XXBTZEUR" := by
  decide

/-- The encoding escapes keys and values and repeats the key for each of its values. -/
theorem Encode_escapes :
    Values.Encode (Values.Set [("a b", ["x/y", "é"])] "A" "1")
      = "A=1&a+b=x%2Fy&a+b=%C3%A9" := by
  decide

theorem GoMap.get?_set_self {β : Type} (m : GoMap β) (key : String) (v : β) :
    GoMap.get? (GoMap.set m key v) key = some v := by
  induction m with
  | nil => simp [GoMap.set, GoMap.get?]
  | cons e rest ih =>
    obtain ⟨k, w⟩ := e
    by_cases h : k = key
    · simp [GoMap.set, GoMap.get?, h]
    · simp [GoMap.set, GoMap.get?, h, ih]

/-- C1: `createKrakenSignature path values secret` is the base64 encoding of the HMAC-SHA512,
keyed by `secret`, of the bytes of `path` followed by the SHA-256 digest of
`values.Get("nonce")` followed by `values.Encode()`; and the nonce read by `Get` is the exact
string that `Set("nonce", n)` stored in the parameter set. -/
theorem createKrakenSignature_eq (c : Crypto) (url_path : String) (values : Values)
    (secret : Bytes) :
    createKrakenSignature c url_path values secret
        = c.encodeToString (c.hmacSha512Sum secret
            (utf8 url_path
              ++ c.sha256Sum (utf8 (Values.Get values "nonce" ++ Values.Encode values))))
      ∧ ∀ n : String, Values.Get (Values.Set values "nonce" n) "nonce" = n := by
  refine ⟨rfl, fun n => ?_⟩
  simp [Values.Get, Values.Set, GoMap.get?_set_self]

/-! ### The envelope decoder -/

theorem stringElems_map_str {F : Type} (strs : List String) :
    stringElems (strs.map (JSON.str : String → JSON F)) = some strs := by
  induction strs with
  | nil => rfl
  | cons s rest ih => simp [stringElems, stringElem, ih]

theorem unmarshalStrings_arr_map_str {F : Type} (strs : List String) :
    unmarshalStrings (JSON.arr (strs.map (JSON.str : String → JSON F))) = some strs := by
  simp [unmarshalStrings, stringElems_map_str]

theorem equalFold_error_error : equalFold "error" "error" = true := by decide

theorem equalFold_result_error : equalFold "result" "error" = false := by decide

theorem equalFold_result_result : equalFold "result" "result" = true := by decide

theorem unmarshalFields_single {F α : Type} (unm : JSON F → α → Option α)
    (r0 : KrakenResponse F α) (key : String) (value : JSON F) :
    unmarshalFields unm [(key, value)] r0 = unmarshalField unm r0 key value := by
  simp only [unmarshalFields]
  cases unmarshalField unm r0 key value <;> rfl

theorem unmarshalFields_error_cons {F α : Type} (unm : JSON F → α → Option α)
    (r0 : KrakenResponse F α) (errors : List String) (rest : List (String × JSON F)) :
    unmarshalFields unm (("error", JSON.arr (errors.map JSON.str)) :: rest) r0
      = unmarshalFields unm rest { r0 with Error := errors } := by
  simp only [unmarshalFields, unmarshalField, equalFold_error_error,
    unmarshalStrings_arr_map_str, if_true]

/-- The value of `parse` on a well-formed envelope with a result member, in terms of the
decoding of that member. -/
theorem parse_envelope_some {F α : Type} (unm : JSON F → α → Option α) (errors : List String)
    (r : JSON F) (struct_type : Option α) :
    parse unm (some (Envelope.toJSON ⟨errors, some r⟩)) struct_type
      = match unmarshalField unm
            { Error := errors,
              Result := match struct_type with
                | some target => .ptr target
                | none => Dyn.nil } "result" r with
        | none => (Dyn.nil, some .json)
        | some response =>
          if response.Error.length > 0 then (Dyn.nil, some (apiError response.Error))
          else (response.Result, none) := by
  simp only [parse, unmarshalResponse, Envelope.toJSON, unmarshalFields_error_cons,
    unmarshalFields_single]

/-- The value of `parse` on a well-formed envelope without a result member. -/
theorem parse_envelope_none {F α : Type} (unm : JSON F → α → Option α) (errors : List String)
    (struct_type : Option α) :
    parse unm (some (Envelope.toJSON ⟨errors, none⟩)) struct_type
      = if errors.length > 0 then (Dyn.nil, some (apiError errors))
        else ((match struct_type with
                | some target => .ptr target
                | none => Dyn.nil), none) := by
  simp only [parse, unmarshalResponse, Envelope.toJSON, unmarshalFields_error_cons]
  simp only [unmarshalFields]

theorem length_pos_of_ne_nil {β : Type} (xs : List β) (h : xs ≠ []) : xs.length > 0 := by
  cases xs with
  | nil => exact absurd rfl h
  | cons x rest => simp

/-- The value of `parse` on a well-formed envelope whose result member is not `null`, for a
typed shape. -/
theorem parse_envelope_typed {F α : Type} (unm : JSON F → α → Option α) (errors : List String)
    (r : JSON F) (target : α) (hr : r ≠ .null) :
    parse unm (some (Envelope.toJSON ⟨errors, some r⟩)) (some target)
      = match unm r target with
        | none => (Dyn.nil, some .json)
        | some b =>
          if errors.length > 0 then (Dyn.nil, some (apiError errors)) else (.ptr b, none) := by
  rw [parse_envelope_some]
  simp only [unmarshalField, equalFold_result_error, equalFold_result_result, if_true,
    Bool.false_eq_true, if_false]
  cases r with
  | null => exact absurd rfl hr
  | bool b => cases unm (.bool b) target <;> rfl
  | num x => cases unm (.num x) target <;> rfl
  | str x => cases unm (.str x) target <;> rfl
  | arr xs => cases unm (.arr xs) target <;> rfl
  | obj ms => cases unm (.obj ms) target <;> rfl

/-- The value of `parse` on a well-formed envelope for the untyped shape `nil`. -/
theorem parse_envelope_untyped {F α : Type} (unm : JSON F → α → Option α)
    (errors : List String) (r : JSON F) :
    parse unm (some (Envelope.toJSON ⟨errors, some r⟩)) none
      = if errors.length > 0 then (Dyn.nil, some (apiError errors)) else (.untyped r, none) := by
  rw [parse_envelope_some]
  simp only [unmarshalField, equalFold_result_error, equalFold_result_result, if_true,
    Bool.false_eq_true, if_false]
  cases r <;> rfl

/-- The value of `parse` on a well-formed envelope whose result member is `null`. -/
theorem parse_envelope_null {F α : Type} (unm : JSON F → α → Option α)
    (errors : List String) (struct_type : Option α) :
    parse unm (some (Envelope.toJSON ⟨errors, some .null⟩)) struct_type
      = if errors.length > 0 then (Dyn.nil, some (apiError errors)) else (Dyn.nil, none) := by
  rw [parse_envelope_some]
  simp only [unmarshalField, equalFold_result_error, equalFold_result_result, if_true,
    Bool.false_eq_true, if_false]

/-- C2 (as amended): on a response envelope whose error array is non-empty `parse` always
fails and never returns the result, whatever the result member contains and whatever shape is
supplied.  The error is the API error (`Could not execute request!` with the error strings)
unless the result member fails to decode into the supplied shape, and it is the error of
`json.Unmarshal` in that case. -/
theorem parse_error_envelope {F α : Type} (unm : JSON F → α → Option α) (e : Envelope F)
    (struct_type : Option α) (h : e.error ≠ []) :
    (parse unm (some e.toJSON) struct_type).1 = Dyn.nil
      ∧ ((parse unm (some e.toJSON) struct_type).2 = some (apiError e.error)
          ∨ (parse unm (some e.toJSON) struct_type).2 = some .json)
      ∧ ((∀ target r, struct_type = some target → e.result = some r → r ≠ .null →
            unm r target ≠ none) →
          (parse unm (some e.toJSON) struct_type).2 = some (apiError e.error))
      ∧ ((∃ target r, struct_type = some target ∧ e.result = some r ∧ r ≠ .null
            ∧ unm r target = none) →
          (parse unm (some e.toJSON) struct_type).2 = some .json) := by
  obtain ⟨errors, result⟩ := e
  have hpos : errors.length > 0 := length_pos_of_ne_nil errors h
  cases result with
  | none =>
    simp only [parse_envelope_none, hpos, if_true]
    refine ⟨trivial, Or.inl trivial, fun _ => trivial, ?_⟩
    rintro ⟨_, _, _, hres, _⟩
    cases hres
  | some r =>
    by_cases hr : r = .null
    · subst hr
      simp only [parse_envelope_null, hpos, if_true]
      refine ⟨trivial, Or.inl trivial, fun _ => trivial, ?_⟩
      rintro ⟨_, _, _, hres, hne, _⟩
      cases hres
      exact absurd rfl hne
    · cases struct_type with
      | none =>
        simp only [parse_envelope_untyped, hpos, if_true]
        refine ⟨trivial, Or.inl trivial, fun _ => trivial, ?_⟩
        rintro ⟨_, _, hst, _⟩
        cases hst
      | some target =>
        rw [parse_envelope_typed unm errors r target hr]
        cases hu : unm r target with
        | none =>
          refine ⟨rfl, Or.inr rfl, fun hall => ?_, fun _ => rfl⟩
          exact absurd hu (hall target r rfl rfl hr)
        | some b =>
          simp only [hpos, if_true]
          refine ⟨trivial, Or.inl trivial, fun _ => trivial, ?_⟩
          rintro ⟨t1, r1, hst, hres, _, hnone⟩
          cases hst
          cases hres
          rw [hu] at hnone
          cases hnone

/-- C2, witness: the envelope `{"error": ["EGeneral:Invalid arguments"], "result": {}}`
decoded with the untyped shape. -/
theorem parse_error_envelope_witness :
    (["EGeneral:Invalid arguments"] ≠ ([] : List String))
      ∧ (parse (fun _ (x : Empty) => some x)
          (some (Envelope.toJSON
            (⟨["EGeneral:Invalid arguments"], some (.obj [])⟩ : Envelope Int)))
          none).1 = Dyn.nil
      ∧ (parse (fun _ (x : Empty) => some x)
          (some (Envelope.toJSON
            (⟨["EGeneral:Invalid arguments"], some (.obj [])⟩ : Envelope Int)))
          none).2 = some (.errorf "Could not execute request! ([EGeneral:Invalid arguments])") := by
  have h := parse_error_envelope (fun _ (x : Empty) => some x)
    (⟨["EGeneral:Invalid arguments"], some (.obj [])⟩ : Envelope Int) none (by decide)
  refine ⟨by decide, h.1, ?_⟩
  have h3 := h.2.2.1 (fun target => target.elim)
  rw [h3]
  decide

/-- C2, counterexample: for the envelope `{"error": ["EGeneral:Invalid arguments"],
"result": "x"}` and a pointer to the empty struct (`&struct{}{}`) as the expected shape, the
string `"x"` does not decode into the struct, and `parse` returns the error of
`json.Unmarshal`, which is not the API error. -/
theorem parse_error_envelope_not_api_error :
    parse (unmarshalStruct (fun _ (t : Unit) => some t))
        (some (Envelope.toJSON (⟨["EGeneral:Invalid arguments"], some (.str "x")⟩ : Envelope Int)))
        (some ())
      = (Dyn.nil, some Err.json)
    ∧ Err.json ≠ apiError ["EGeneral:Invalid arguments"] := by
  refine ⟨rfl, ?_⟩
  decide

/-! ### The tuple decoders -/

/-- C3: on a JSON array of strings whose length is not 3, `AskBid.UnmarshalJSON` returns the
error `Invalid number of entries` and leaves the receiver as it was: no entry is dropped
and none is padded. -/
theorem AskBid_UnmarshalJSON_arity {F : Type} (parseFloat : String → F × Option Err)
    (t : AskBid F) (strs : List String) (h : strs.length ≠ 3) :
    AskBid.UnmarshalJSON parseFloat t (some (.arr (strs.map .str)))
      = (t, some (.errorf "Invalid number of entries")) := by
  simp only [AskBid.UnmarshalJSON, Option.bind, unmarshalStrings_arr_map_str]
  simp [h]

/-- C3, witness: the arrays `["1","2"]` and `["1","2","3","4"]`. -/
theorem AskBid_UnmarshalJSON_arity_witness :
    (["1", "2"].length ≠ 3
      ∧ AskBid.UnmarshalJSON parseDigits ⟨7, 8, 9⟩ (some (.arr [.str "1", .str "2"]))
          = (⟨7, 8, 9⟩, some (.errorf "Invalid number of entries")))
    ∧ (["1", "2", "3", "4"].length ≠ 3
      ∧ AskBid.UnmarshalJSON parseDigits ⟨7, 8, 9⟩
          (some (.arr [.str "1", .str "2", .str "3", .str "4"]))
          = (⟨7, 8, 9⟩, some (.errorf "Invalid number of entries"))) :=
  ⟨⟨by decide, AskBid_UnmarshalJSON_arity parseDigits ⟨7, 8, 9⟩ ["1", "2"] (by decide)⟩,
   ⟨by decide,
    AskBid_UnmarshalJSON_arity parseDigits ⟨7, 8, 9⟩ ["1", "2", "3", "4"] (by decide)⟩⟩

/-- C4: `PublicOrder.UnmarshalJSON` has no arity check.  On the two-entry level `["1","2"]`
the index `out[2]` is out of range and the method panics; on the four-entry level
`["1","2",3,"4"]` it returns no error and silently ignores the fourth entry. -/
theorem PublicOrder_UnmarshalJSON_no_arity_check :
    PublicOrder.UnmarshalJSON parseDigits ⟨0, 0, 0⟩ (some (.arr [.str "1", .str "2"]))
      = .error .indexOutOfRange
    ∧ PublicOrder.UnmarshalJSON parseDigits ⟨0, 0, 0⟩
        (some (.arr [.str "1", .str "2", .num 3, .str "4"]))
      = .ok (⟨1, 2, 3⟩, none) := by
  constructor <;> rfl

/-! ### The OHLC decoder -/

/-- In an object with distinct keys that has a member `last`, no other member has the key
`last`. -/
theorem key_ne_last {β : Type} (xs ys : List (String × β)) (v : β)
    (h : ((xs ++ ("last", v) :: ys).map Prod.fst).Nodup) (q : String × β)
    (hq : q ∈ xs ++ ys) : q.1 ≠ "last" := by
  intro heq
  rw [List.map_append, List.map_cons, List.nodup_append] at h
  obtain ⟨_, hcons, hdisj⟩ := h
  rcases List.mem_append.mp hq with hx | hy
  · have hx1 : q.1 ∈ xs.map Prod.fst := List.mem_map_of_mem Prod.fst hx
    rw [heq] at hx1
    exact hdisj hx1 (List.mem_cons_self _ _)
  · have hy1 : q.1 ∈ ys.map Prod.fst := List.mem_map_of_mem Prod.fst hy
    rw [heq] at hy1
    exact (List.nodup_cons.mp hcons).1 hy1

theorem ohlcEntry_toJSON {F : Type} (parseFloat : String → F × Option Err) (r : OHLCRow F)
    (h : r.numeric parseFloat) :
    ohlcEntry parseFloat r.toJSON = .ok (.ok (r.entry parseFloat)) := by
  obtain ⟨h1, h2, h3, h4, h5, h6⟩ := h
  simp [ohlcEntry, OHLCRow.toJSON, OHLCRow.entry, parseFloatAt, index, asSlice, asString,
    asFloat64, bind, Except.bind, pure, Except.pure, h1, h2, h3, h4, h5, h6]

theorem ohlcRows_toJSON {F : Type} (parseFloat : String → F × Option Err)
    (rows : List (OHLCRow F)) (ohlc_data : List (OHLCEntry F))
    (h : ∀ r ∈ rows, r.numeric parseFloat) :
    ohlcRows parseFloat (rows.map OHLCRow.toJSON) ohlc_data
      = .ok (.ok (ohlc_data ++ rows.map (OHLCRow.entry parseFloat))) := by
  induction rows generalizing ohlc_data with
  | nil => simp [ohlcRows, pure, Except.pure]
  | cons r rest ih =>
    have hr : r.numeric parseFloat := h r (List.mem_cons_self _ _)
    have hrest : ∀ x ∈ rest, x.numeric parseFloat :=
      fun x hx => h x (List.mem_cons_of_mem _ hx)
    simp [ohlcRows, ohlcEntry_toJSON parseFloat r hr, ih _ hrest, bind, Except.bind]

theorem ohlcLoop_pairs {F : Type} [Zero F] (parseFloat : String → F × Option Err)
    (pairs : List (String × List (OHLCRow F))) (rest : List (String × JSON F)) (last : F)
    (ohlc_data : List (OHLCEntry F))
    (hkeys : ∀ p ∈ pairs, p.1 ≠ "last")
    (hnum : ∀ p ∈ pairs, ∀ r ∈ p.2, r.numeric parseFloat) :
    ohlcLoop parseFloat (ohlcPairs pairs ++ rest) last ohlc_data
      = ohlcLoop parseFloat rest last
          (ohlc_data ++ pairs.flatMap (fun p => p.2.map (OHLCRow.entry parseFloat))) := by
  induction pairs generalizing ohlc_data with
  | nil => simp [ohlcPairs]
  | cons p ps ih =>
    have hk : p.1 ≠ "last" := hkeys p (List.mem_cons_self _ _)
    have hn : ∀ r ∈ p.2, r.numeric parseFloat := hnum p (List.mem_cons_self _ _)
    have hks : ∀ q ∈ ps, q.1 ≠ "last" := fun q hq => hkeys q (List.mem_cons_of_mem _ hq)
    have hns : ∀ q ∈ ps, ∀ r ∈ q.2, r.numeric parseFloat :=
      fun q hq => hnum q (List.mem_cons_of_mem _ hq)
    have ih1 := ih (ohlc_data ++ p.2.map (OHLCRow.entry parseFloat)) hks hns
    simp only [ohlcPairs] at ih1
    simp [ohlcPairs, ohlcLoop, hk, asSlice, ohlcRows_toJSON parseFloat p.2 ohlc_data hn, bind,
      Except.bind, ih1]

/-- C5: on an OHLC result object (its keys are distinct) made of a numeric `last` member
and of pair members mapped to arrays of 8-position rows (a number, six numeric strings, a
number), `ApiOHLC` returns the value of `last` as the cursor, no error, and exactly one entry
per row, with Time, Open, High, Low, Close, VWAP, Volume and Count taken from the positions 0
to 7 in that order.  The member `last` may be visited at any place among the pairs (`before`
and `after` it). -/
theorem ApiOHLC_decodes_rows {F : Type} [Zero F] (parseFloat : String → F × Option Err)
    (cursor : F) (before after : List (String × List (OHLCRow F)))
    (hdistinct :
      ((ohlcPairs before ++ ("last", JSON.num cursor) :: ohlcPairs after).map Prod.fst).Nodup)
    (hnum : ∀ p ∈ before ++ after, ∀ r ∈ p.2, r.numeric parseFloat) :
    ApiOHLC parseFloat
        (some (Envelope.toJSON
          ⟨[], some (.obj (ohlcPairs before ++ ("last", .num cursor) :: ohlcPairs after))⟩),
         none)
      = .ok (cursor,
          some ((before ++ after).flatMap (fun p => p.2.map (OHLCRow.entry parseFloat))),
          none) := by
  have hkeys : ∀ p ∈ before ++ after, p.1 ≠ "last" := by
    intro p hp
    have hq : (p.1, JSON.arr (p.2.map OHLCRow.toJSON))
        ∈ ohlcPairs before ++ ohlcPairs after := by
      rw [ohlcPairs, ohlcPairs, ← List.map_append]
      exact List.mem_map_of_mem _ hp
    exact key_ne_last _ _ _ hdistinct _ hq
  have hb := ohlcLoop_pairs parseFloat before (("last", .num cursor) :: ohlcPairs after) 0 []
    (fun p hp => hkeys p (List.mem_append_left _ hp))
    (fun p hp => hnum p (List.mem_append_left _ hp))
  have ha := ohlcLoop_pairs parseFloat after [] cursor
    (before.flatMap (fun p => p.2.map (OHLCRow.entry parseFloat)))
    (fun p hp => hkeys p (List.mem_append_right _ hp))
    (fun p hp => hnum p (List.mem_append_right _ hp))
  rw [List.append_nil] at ha
  rw [List.nil_append] at hb
  simp only [ApiOHLC, parseNil, parse_envelope_untyped, List.length_nil, gt_iff_lt,
    lt_self_iff_false, if_false, Dyn.asMap, asMap, bind, Except.bind, hb]
  simp [ohlcLoop, asFloat64, bind, Except.bind, ha, pure, Except.pure]

/-- C5, witness: the payload `{"XBTEUR": [[0,"1","2","3","4","5","6",7]], "last": 12345.0}`
yields the one entry `{0,1,2,3,4,5,6,7}` and the cursor `12345.0`. -/
theorem ApiOHLC_decodes_rows_witness :
    ApiOHLC parseDigits
        (some (.obj [("error", .arr []),
          ("result", .obj [
            ("XBTEUR", .arr [.arr [.num 0, .str "1", .str "2", .str "3", .str "4", .str "5",
              .str "6", .num 7]]),
            ("last", .num 12345)])]),
         none)
      = .ok (12345, some [⟨0, 1, 2, 3, 4, 5, 6, 7⟩], none) :=
  ApiOHLC_decodes_rows parseDigits 12345 [("XBTEUR", [⟨0, "1", "2", "3", "4", "5", "6", 7⟩])] []
    (by decide) (by decide)

/-! ### The decoders of recent trades, spreads and balances -/

/-- C6: `ApiTrades` leaves its loop at the member `last` (`break`).  On the result
`{"last": "5", "XXBTZEUR": [["1","2",3,"b","l",""]]}` visited with `last` first, it returns
an empty map: the pair `XXBTZEUR` is not decoded.  Visited with the pair first, the same
result yields the entry of the pair. -/
theorem ApiTrades_last_first_drops_pairs :
    ApiTrades parseDigits
        (some (.obj [("error", .arr []),
          ("result", .obj [
            ("last", .str "5"),
            ("XXBTZEUR", .arr [.arr [.str "1", .str "2", .num 3, .str "b", .str "l",
              .str ""]])])]),
         none)
      = .ok (some [], 5, none)
    ∧ ApiTrades parseDigits
        (some (.obj [("error", .arr []),
          ("result", .obj [
            ("XXBTZEUR", .arr [.arr [.str "1", .str "2", .num 3, .str "b", .str "l",
              .str ""]]),
            ("last", .str "5")])]),
         none)
      = .ok (some [("XXBTZEUR", [⟨1, 2, 3, "b", "l", ""⟩])], 5, none) := by
  constructor <;> rfl

/-- C7: on the spread row `[1, "10", "20"]`, which is `[time, bid, ask]`, `ApiSpread`
produces the `Spread` with `Time = 1`, `Bid = 20` and `Ask = 10`: position 1 ends in `Ask`
and position 2 in `Bid`. -/
theorem ApiSpread_swaps_bid_ask :
    ApiSpread parseDigits
        (some (.obj [("error", .arr []),
          ("result", .obj [
            ("XXBTZEUR", .arr [.arr [.num 1, .str "10", .str "20"]]),
            ("last", .num 9)])]),
         none)
      = .ok (some [("XXBTZEUR", [{ Time := 1, Bid := 20, Ask := 10 }])], 9, none) := by
  rfl

/-- C8: on the balance result `{"ZEUR": "1", "XXBT": "x"}`, visited in that order,
`ApiBalance` returns the error of `ParseFloat` on `"x"` together with the map that holds
the entry `ZEUR` decoded before the failure. -/
theorem ApiBalance_returns_partial_map :
    ApiBalance parseDigits
        (some (.obj [("error", .arr []),
          ("result", .obj [("ZEUR", .str "1"), ("XXBT", .str "x")])]),
         none)
      = .ok (some [("ZEUR", 1)], some (.numError "x")) := by
  rfl

/-! ### `Query` and the secret -/

/-- The headers of a signed request. -/
theorem signed_headers (key signature userAgent : String) :
    GoMap.set
        (if userAgent ≠ "" then
          GoMap.set (GoMap.set (GoMap.set [] "API-Key" key) "API-Sign" signature)
            "User-Agent" userAgent
         else GoMap.set (GoMap.set [] "API-Key" key) "API-Sign" signature)
        "Content-Type" "application/x-www-form-urlencoded"
      = [("API-Key", key), ("API-Sign", signature)]
          ++ (if userAgent ≠ "" then [("User-Agent", userAgent)] else [])
          ++ [("Content-Type", "application/x-www-form-urlencoded")] := by
  by_cases h : userAgent = "" <;> simp [GoMap.set, h]

/-- C9 (as amended): a signed `Query` does not check the secret.  Whatever
`base64.StdEncoding.DecodeString` reports for the secret, `KrakenApi.Query` and
`ApiClient.Query` compute the signature with the bytes that `DecodeString` returned as the
key, hand the signed POST request to the transport and return what the transport returns;
the result does not depend on the error that `DecodeString` reported. -/
theorem Query_ignores_secret_error (c : Crypto) (executeHttpQuery : Request → Bytes × Option Err)
    (now : Int) (key secret apiRoot userAgent url_path : String) (params : Values) :
    KrakenApi.Query c executeHttpQuery now ⟨key, secret, apiRoot, userAgent⟩ url_path params true
        = executeHttpQuery
            { method := "POST",
              url := apiRoot ++ url_path,
              headers :=
                [("API-Key", key),
                 ("API-Sign", createKrakenSignature c url_path
                    (Values.Set params "nonce" (toString now)) (c.decodeString secret).1)]
                  ++ (if userAgent ≠ "" then [("User-Agent", userAgent)] else [])
                  ++ [("Content-Type", "application/x-www-form-urlencoded")],
              params := Values.Set params "nonce" (toString now) }
      ∧ ApiClient.Query c executeHttpQuery now ⟨key, secret, apiRoot, userAgent⟩ url_path params
          true
        = KrakenApi.Query c executeHttpQuery now ⟨key, secret, apiRoot, userAgent⟩ url_path
            params true
      ∧ ∀ report : String → Option Err,
          KrakenApi.Query
              { c with decodeString := fun s => ((c.decodeString s).1, report s) }
              executeHttpQuery now ⟨key, secret, apiRoot, userAgent⟩ url_path params true
            = KrakenApi.Query c executeHttpQuery now ⟨key, secret, apiRoot, userAgent⟩ url_path
                params true := by
  refine ⟨?_, rfl, fun report => rfl⟩
  simp only [KrakenApi.Query, queryRequest, if_true]
  rw [signed_headers]

/-- C9, counterexample: the secret `!!!` is not valid base64 (`DecodeString` reports a
corrupt input at offset 0 and no byte), yet the signed `Query` of a client with that secret
issues the POST request, signed with the empty key, and returns the reply of the transport
with no error. -/
theorem Query_invalid_secret_succeeds :
    plainCrypto.decodeString "!!!" = ([], some (.corruptInput 0))
    ∧ KrakenApi.Query plainCrypto (fun req => (utf8 req.method, none)) 17
        ⟨"key", "!!!", "https://api.kraken.com", "kraken-api"⟩ "/0/private/Balance" [] true
      = (utf8 "POST", none)
    ∧ ApiClient.Query plainCrypto (fun req => (utf8 req.method, none)) 17
        ⟨"key", "!!!", "https://api.kraken.com", ""⟩ "/0/private/Balance" [] true
      = (utf8 "POST", none)
    ∧ (queryRequest plainCrypto 17 "key" "!!!" "https://api.kraken.com" "kraken-api"
        "/0/private/Balance" [] true).headers
      = [("API-Key", "key"),
         ("API-Sign", createKrakenSignature plainCrypto "/0/private/Balance"
            [("nonce", ["17"])] []),
         ("User-Agent", "kraken-api"),
         ("Content-Type", "application/x-www-form-urlencoded")] := by
  refine ⟨by decide, rfl, rfl, ?_⟩
  decide

/-! ### Envelopes without a result -/

theorem unmarshalFields_emptyEnvelope {F α : Type} (unm : JSON F → α → Option α)
    (ms : List (String × JSON F)) (r0 : KrakenResponse F α) (h : emptyEnvelope ms)
    (h0 : r0.Error = []) : unmarshalFields unm ms r0 = some r0 := by
  induction ms with
  | nil => rfl
  | cons m rest ih =>
    obtain ⟨key, value⟩ := m
    have hrest : emptyEnvelope rest := fun x hx => h x (List.mem_cons_of_mem _ hx)
    have hfield : unmarshalField unm r0 key value = some r0 := by
      rcases h (key, value) (List.mem_cons_self _ _) with ⟨hk, hv⟩ | ⟨he, hr⟩
      · simp only at hk hv
        subst hk
        subst hv
        obtain ⟨errors, result⟩ := r0
        simp only at h0
        subst h0
        simp [unmarshalField, equalFold_error_error, unmarshalStrings, stringElems]
      · simp only at he hr
        simp [unmarshalField, he, hr]
    simp only [unmarshalFields, hfield]
    exact ih hrest

/-- C10 (as amended): on an envelope with an empty error array and no result member,
`parse` succeeds; for a typed shape it returns the pointer it was given, with its target
untouched, and for the untyped shape `nil` it returns the nil interface. -/
theorem parse_no_result {F α : Type} (unm : JSON F → α → Option α)
    (ms : List (String × JSON F)) (target : α) (h : emptyEnvelope ms) :
    parse unm (some (.obj ms)) (some target) = (.ptr target, none)
      ∧ parse unm (some (.obj ms)) none = (Dyn.nil, none) := by
  constructor <;>
    simp [parse, unmarshalResponse, unmarshalFields_emptyEnvelope unm ms _ h]

/-- C10, witness: the envelope `{"error": []}` and a pointer to an `AskBid`. -/
theorem parse_no_result_witness :
    emptyEnvelope [("error", (.arr [] : JSON Int))]
      ∧ parse (unmarshalStruct (fun _ (t : AskBid Int) => some t))
          (some (.obj [("error", .arr [])]) : Raw Int) (some ⟨1, 2, 3⟩)
        = (.ptr ⟨1, 2, 3⟩, none)
      ∧ parse (unmarshalStruct (fun _ (t : AskBid Int) => some t))
          (some (.obj [("error", .arr [])]) : Raw Int) none
        = (Dyn.nil, none) :=
  have h : emptyEnvelope [("error", (.arr [] : JSON Int))] := by
    intro m hm
    simp only [List.mem_singleton] at hm
    subst hm
    exact Or.inl ⟨rfl, rfl⟩
  ⟨h, parse_no_result (unmarshalStruct (fun _ (t : AskBid Int) => some t))
    [("error", .arr [])] ⟨1, 2, 3⟩ h⟩

/-- C10, counterexample: on the envelope `{"error": []}` the untyped callers do not return
an empty result.  `parse` hands them the nil interface, and the type assertion
`content.(map[string]interface{})` of `ApiBalance`, `ApiOHLC`, `ApiTrades` and `ApiSpread`
panics on it. -/
theorem untyped_callers_panic_without_result :
    ApiBalance parseDigits (some (.obj [("error", .arr [])]), none) = .error .typeAssertion
    ∧ ApiOHLC parseDigits (some (.obj [("error", .arr [])]), none) = .error .typeAssertion
    ∧ ApiTrades parseDigits (some (.obj [("error", .arr [])]), none) = .error .typeAssertion
    ∧ ApiSpread parseDigits (some (.obj [("error", .arr [])]), none) = .error .typeAssertion := by
  refine ⟨rfl, rfl, rfl, rfl⟩

/-! ### Malformed replies -/

theorem unmarshalFields_append {F α : Type} (unm : JSON F → α → Option α)
    (xs ys : List (String × JSON F)) (r0 : KrakenResponse F α) :
    unmarshalFields unm (xs ++ ys) r0
      = (unmarshalFields unm xs r0).bind (unmarshalFields unm ys) := by
  induction xs generalizing r0 with
  | nil => rfl
  | cons m rest ih =>
    obtain ⟨key, value⟩ := m
    simp only [List.cons_append, unmarshalFields]
    cases unmarshalField unm r0 key value with
    | none => rfl
    | some r1 => exact ih r1

theorem unmarshalField_keeps_error {F α : Type} (unm : JSON F → α → Option α)
    (r0 r1 : KrakenResponse F α) (key : String) (value : JSON F)
    (hkey : equalFold key "error" = false)
    (h : unmarshalField unm r0 key value = some r1) : r1.Error = r0.Error := by
  simp only [unmarshalField, hkey, Bool.false_eq_true, if_false] at h
  split at h
  · split at h
    · cases h; rfl
    · split at h
      · cases h; rfl
      · cases h
    · cases h; rfl
  · cases h; rfl

theorem unmarshalFields_keeps_error {F α : Type} (unm : JSON F → α → Option α)
    (ms : List (String × JSON F)) (r0 r1 : KrakenResponse F α)
    (hkeys : ∀ m ∈ ms, equalFold m.1 "error" = false)
    (h : unmarshalFields unm ms r0 = some r1) : r1.Error = r0.Error := by
  induction ms generalizing r0 with
  | nil =>
    simp only [unmarshalFields] at h
    cases h
    rfl
  | cons m rest ih =>
    obtain ⟨key, value⟩ := m
    simp only [unmarshalFields] at h
    cases hf : unmarshalField unm r0 key value with
    | none => rw [hf] at h; cases h
    | some r2 =>
      rw [hf] at h
      have h1 := ih r2 (fun x hx => hkeys x (List.mem_cons_of_mem _ hx)) h
      have h2 := unmarshalField_keeps_error unm r0 r2 key value
        (hkeys (key, value) (List.mem_cons_self _ _)) hf
      rw [h1, h2]

theorem stringElems_length {F : Type} (xs : List (JSON F)) (es : List String)
    (h : stringElems xs = some es) : es.length = xs.length := by
  induction xs generalizing es with
  | nil =>
    simp only [stringElems] at h
    cases h
    rfl
  | cons x rest ih =>
    simp only [stringElems] at h
    cases hx : stringElem x with
    | none => simp [hx] at h
    | some s =>
      cases hr : stringElems rest with
      | none => simp [hx, hr] at h
      | some ss =>
        simp only [hx, hr] at h
        cases h
        simp [ih ss hr]

/-- The decoding of an error member that is neither `null` nor an array of strings fails,
or it yields at least one error string. -/
theorem unmarshalStrings_not_strings {F : Type} (v : JSON F) (hnull : v ≠ .null)
    (hstrings : ¬ isStringArray v) :
    unmarshalStrings v = none ∨ ∃ es, unmarshalStrings v = some es ∧ es ≠ [] := by
  cases v with
  | null => exact absurd rfl hnull
  | bool b => exact Or.inl rfl
  | num x => exact Or.inl rfl
  | str s => exact Or.inl rfl
  | obj ms => exact Or.inl rfl
  | arr xs =>
    simp only [unmarshalStrings]
    cases h : stringElems xs with
    | none => exact Or.inl rfl
    | some es =>
      refine Or.inr ⟨es, rfl, ?_⟩
      intro hes
      subst hes
      have hlen := stringElems_length xs [] h
      have hxs : xs = [] := List.length_eq_zero.mp hlen.symm
      subst hxs
      exact hstrings ⟨[], rfl⟩

/-- C11 (as amended): `parse` returns an error, and no result, for every input that is not
valid JSON, for every JSON boolean, number, string or array, and for every JSON object
whose error member is neither `null` nor an array of strings.  (The JSON value `null` and
an object whose error member is `null` are not among these inputs.) -/
theorem parse_malformed {F α : Type} (unm : JSON F → α → Option α) (resp : Raw F)
    (struct_type : Option α) (h : Malformed resp) :
    (parse unm resp struct_type).1 = Dyn.nil
      ∧ ∃ err, (parse unm resp struct_type).2 = some err := by
  cases h with
  | invalid => exact ⟨rfl, _, rfl⟩
  | bool b => exact ⟨rfl, _, rfl⟩
  | num x => exact ⟨rfl, _, rfl⟩
  | str s => exact ⟨rfl, _, rfl⟩
  | arr xs => exact ⟨rfl, _, rfl⟩
  | errorMember before key v after hkey hlast hnull hstrings =>
    simp only [parse, unmarshalResponse, unmarshalFields_append]
    cases hb : unmarshalFields unm before _ with
    | none => exact ⟨rfl, _, rfl⟩
    | some r1 =>
      simp only [Option.bind, unmarshalFields, unmarshalField, hkey, if_true]
      rcases unmarshalStrings_not_strings v hnull hstrings with hv | ⟨es, hv, hes⟩
      · simp only [hv]
        exact ⟨trivial, _, rfl⟩
      · simp only [hv]
        cases ha : unmarshalFields unm after { r1 with Error := es } with
        | none => exact ⟨rfl, _, rfl⟩
        | some r2 =>
          have herr : r2.Error = es := unmarshalFields_keeps_error unm after _ r2 hlast ha
          have hpos : r2.Error.length > 0 := by
            rw [herr]
            exact length_pos_of_ne_nil es hes
          simp only [hpos, if_true]
          exact ⟨trivial, _, rfl⟩

/-- C11, witness: the array `[1]`, and the object `{"error": "EGeneral", "result": {}}`
whose error member is a string. -/
theorem parse_malformed_witness :
    (Malformed (some (.arr [.num 1]) : Raw Int)
      ∧ (parseNil (some (.arr [.num 1]) : Raw Int)).1 = Dyn.nil
      ∧ ∃ err, (parseNil (some (.arr [.num 1]) : Raw Int)).2 = some err)
    ∧ (Malformed (some (.obj ([] ++ ("error", .str "EGeneral") :: [("result", .obj [])]))
          : Raw Int)
      ∧ (parseNil (some (.obj [("error", .str "EGeneral"), ("result", .obj [])])
          : Raw Int)).1 = Dyn.nil
      ∧ ∃ err, (parseNil (some (.obj [("error", .str "EGeneral"), ("result", .obj [])])
          : Raw Int)).2 = some err) := by
  have h1 : Malformed (some (.arr [.num 1]) : Raw Int) := Malformed.arr _
  have h2 : Malformed (some (.obj ([] ++ ("error", .str "EGeneral") :: [("result", .obj [])]))
      : Raw Int) := by
    refine Malformed.errorMember [] "error" (.str "EGeneral") [("result", .obj [])] (by decide)
      ?_ (by intro h; cases h) ?_
    · intro m hm
      simp only [List.mem_singleton] at hm
      subst hm
      decide
    · rintro ⟨strs, hs⟩
      cases hs
  exact ⟨⟨h1, parse_malformed (fun _ (e : Empty) => some e) _ none h1⟩,
    ⟨h2, parse_malformed (fun _ (e : Empty) => some e) _ none h2⟩⟩

/-- C11, counterexample: the input `null` is not a JSON object, and in the object
`{"error": null}` the error member is not an array of strings, yet `parse` returns no error
on either: `json.Unmarshal` leaves the response untouched on `null`, and decodes a `null`
error member to the nil slice. -/
theorem parse_null_is_no_error :
    parse (unmarshalStruct (fun _ (t : Unit) => some t)) (some .null : Raw Int) (some ())
      = (.ptr (), none)
    ∧ parseNil (some .null : Raw Int) = (Dyn.nil, none)
    ∧ parseNil (some (.obj [("error", .null)]) : Raw Int) = (Dyn.nil, none) := by
  refine ⟨rfl, rfl, rfl⟩

/-! ### Determinism of the signature -/

theorem strLe_total (a b : String) : strLe a b = true ∨ strLe b a = true := by
  simp only [strLe, decide_eq_true_eq]
  exact le_total a.data b.data

theorem strLe_trans (a b c : String) (hab : strLe a b = true) (hbc : strLe b c = true) :
    strLe a c = true := by
  simp only [strLe, decide_eq_true_eq] at *
  exact le_trans hab hbc

theorem strLe_antisymm (a b : String) (hab : strLe a b = true) (hba : strLe b a = true) :
    a = b := by
  simp only [strLe, decide_eq_true_eq] at *
  have h : a.data = b.data := le_antisymm hab hba
  cases a
  cases b
  simp only at h
  rw [h]

theorem insertKey_eq_orderedInsert (k : String) (ks : List String) :
    insertKey k ks = List.orderedInsert (fun a b => strLe a b = true) k ks := by
  induction ks with
  | nil => rfl
  | cons x rest ih =>
    simp only [insertKey, List.orderedInsert]
    by_cases h : strLe k x = true
    · simp [h]
    · simp [h, ih]

theorem sortKeys_eq_insertionSort (ks : List String) :
    sortKeys ks = List.insertionSort (fun a b => strLe a b = true) ks := by
  induction ks with
  | nil => rfl
  | cons k rest ih => simp [sortKeys, List.insertionSort, ih, insertKey_eq_orderedInsert]

/-- Sorting the keys gives the same list whatever the order in which they were collected. -/
theorem sortKeys_perm (ks1 ks2 : List String) (h : ks1.Perm ks2) :
    sortKeys ks1 = sortKeys ks2 := by
  haveI : IsTotal String (fun a b => strLe a b = true) := ⟨strLe_total⟩
  haveI : IsTrans String (fun a b => strLe a b = true) := ⟨strLe_trans⟩
  haveI : IsAntisymm String (fun a b => strLe a b = true) := ⟨strLe_antisymm⟩
  rw [sortKeys_eq_insertionSort, sortKeys_eq_insertionSort]
  apply List.eq_of_perm_of_sorted (r := fun a b => strLe a b = true)
  · exact ((List.perm_insertionSort _ ks1).trans h).trans (List.perm_insertionSort _ ks2).symm
  · exact List.sorted_insertionSort _ ks1
  · exact List.sorted_insertionSort _ ks2

theorem GoMap.get?_eq_some_iff {β : Type} (m : GoMap β) (h : (m.map Prod.fst).Nodup)
    (key : String) (v : β) : GoMap.get? m key = some v ↔ (key, v) ∈ m := by
  induction m with
  | nil => simp [GoMap.get?]
  | cons e rest ih =>
    obtain ⟨k, w⟩ := e
    simp only [List.map_cons, List.nodup_cons] at h
    by_cases hk : k = key
    · subst hk
      simp only [GoMap.get?, if_true, List.mem_cons, Prod.mk.injEq, true_and, Option.some.injEq]
      constructor
      · intro hw
        exact Or.inl hw.symm
      · rintro (hv | hmem)
        · exact hv.symm
        · exact absurd (List.mem_map_of_mem Prod.fst hmem) h.1
    · simp only [GoMap.get?, hk, if_false, List.mem_cons, Prod.mk.injEq, ih h.2]
      constructor
      · exact Or.inr
      · rintro (⟨hkey, _⟩ | hmem)
        · exact absurd hkey.symm hk
        · exact hmem

/-- A lookup does not depend on the order in which the entries of the map are listed. -/
theorem GoMap.get?_perm {β : Type} (m1 m2 : GoMap β) (h : m1.Perm m2)
    (hnodup : (m1.map Prod.fst).Nodup) (key : String) :
    GoMap.get? m1 key = GoMap.get? m2 key := by
  have hnodup2 : (m2.map Prod.fst).Nodup := (h.map Prod.fst).nodup_iff.mp hnodup
  cases h1 : GoMap.get? m1 key with
  | some v =>
    have hm : (key, v) ∈ m2 := h.mem_iff.mp ((GoMap.get?_eq_some_iff m1 hnodup key v).mp h1)
    exact ((GoMap.get?_eq_some_iff m2 hnodup2 key v).mpr hm).symm
  | none =>
    cases h2 : GoMap.get? m2 key with
    | none => rfl
    | some v =>
      have hm : (key, v) ∈ m1 := h.mem_iff.mpr ((GoMap.get?_eq_some_iff m2 hnodup2 key v).mp h2)
      rw [(GoMap.get?_eq_some_iff m1 hnodup key v).mpr hm] at h1
      cases h1

theorem encodeKeys_congr (v1 v2 : Values) (h : ∀ k, GoMap.get? v1 k = GoMap.get? v2 k)
    (ks : List String) (buf : String) : encodeKeys v1 ks buf = encodeKeys v2 ks buf := by
  induction ks generalizing buf with
  | nil => rfl
  | cons k rest ih => simp only [encodeKeys, h k, ih]

/-- The encoding of a parameter set does not depend on the order in which its entries are
listed. -/
theorem Encode_perm (v1 v2 : Values) (h : v1.Perm v2) (hnodup : (v1.map Prod.fst).Nodup) :
    Values.Encode v1 = Values.Encode v2 := by
  simp only [Values.Encode, h.length_eq, sortKeys_perm _ _ (h.map Prod.fst)]
  rw [encodeKeys_congr v1 v2 (GoMap.get?_perm v1 v2 h hnodup)]

/-- C12: `createKrakenSignature` is deterministic.  Two calls with equal arguments return
equal signatures, and the signature of a parameter set does not depend on the order in
which the entries of the map are listed (the order in which Go happens to iterate over
it). -/
theorem createKrakenSignature_deterministic (c : Crypto) (url_path url_path2 : String)
    (values values2 : Values) (secret secret2 : Bytes) :
    (url_path = url_path2 → values = values2 → secret = secret2 →
        createKrakenSignature c url_path values secret
          = createKrakenSignature c url_path2 values2 secret2)
      ∧ (values.Perm values2 → (values.map Prod.fst).Nodup →
          createKrakenSignature c url_path values secret
            = createKrakenSignature c url_path values2 secret) := by
  constructor
  · intro hp hv hs
    rw [hp, hv, hs]
  · intro hperm hnodup
    simp only [createKrakenSignature, Values.Get, Encode_perm values values2 hperm hnodup,
      GoMap.get?_perm values values2 hperm hnodup]

/-- C12, witness: the parameter set `{pair: XXBTZEUR, nonce: 17}` listed in its two
orders. -/
theorem createKrakenSignature_deterministic_witness :
    createKrakenSignature plainCrypto "/0/private/Balance"
        [("pair", ["XXBTZEUR"]), ("nonce", ["17"])] [1, 2]
      = createKrakenSignature plainCrypto "/0/private/Balance"
        [("nonce", ["17"]), ("pair", ["XXBTZEUR"])] [1, 2] :=
  (createKrakenSignature_deterministic plainCrypto "/0/private/Balance" "/0/private/Balance"
    [("pair", ["XXBTZEUR"]), ("nonce", ["17"])] [("nonce", ["17"]), ("pair", ["XXBTZEUR"])]
    [1, 2] [1, 2]).2 (List.Perm.swap _ _ _) (by decide)

/-! ### The two-entry and three-entry tuple decoders -/

/-- C14: on a JSON array of strings whose length is not 2, `TradeToday.UnmarshalJSON` and
`TodayH24Float64.UnmarshalJSON` return the error `Invalid number of entries` and leave the
receiver as it was; on an array of two numeric strings they return no error and store the
float of position 0 in the first field (`Price`, `t[0]`) and the float of position 1 in the
second (`Volume`, `t[1]`). -/
theorem two_entry_tuples {F : Type} (parseFloat : String → F × Option Err)
    (t : TradeToday F) (h24 : TodayH24Float64 F) :
    (∀ strs : List String, strs.length ≠ 2 →
        TradeToday.UnmarshalJSON parseFloat t (some (.arr (strs.map .str)))
            = (t, some (.errorf "Invalid number of entries"))
          ∧ TodayH24Float64.UnmarshalJSON parseFloat h24 (some (.arr (strs.map .str)))
            = (h24, some (.errorf "Invalid number of entries")))
      ∧ (∀ s0 s1 : String, (parseFloat s0).2 = none → (parseFloat s1).2 = none →
        TradeToday.UnmarshalJSON parseFloat t (some (.arr [.str s0, .str s1]))
            = ({ Price := (parseFloat s0).1, Volume := (parseFloat s1).1 }, none)
          ∧ TodayH24Float64.UnmarshalJSON parseFloat h24 (some (.arr [.str s0, .str s1]))
            = (((parseFloat s0).1, (parseFloat s1).1), none)) := by
  constructor
  · intro strs h
    constructor
    · simp only [TradeToday.UnmarshalJSON, Option.bind, unmarshalStrings_arr_map_str]
      simp [h]
    · simp only [TodayH24Float64.UnmarshalJSON, Option.bind, unmarshalStrings_arr_map_str]
      simp [h]
  · intro s0 s1 h0 h1
    constructor
    · simp [TradeToday.UnmarshalJSON, Option.bind, unmarshalStrings, stringElems, stringElem,
        h0, h1]
    · simp [TodayH24Float64.UnmarshalJSON, Option.bind, unmarshalStrings, stringElems,
        stringElem, h0, h1]

/-- C14, witness: the arrays `["1"]` and `["1","2","3"]` are rejected, the array
`["1","2"]` is decoded to the pair 1, 2. -/
theorem two_entry_tuples_witness :
    (["1"].length ≠ 2
      ∧ TradeToday.UnmarshalJSON parseDigits ⟨7, 8⟩ (some (.arr [.str "1"]))
          = (⟨7, 8⟩, some (.errorf "Invalid number of entries"))
      ∧ TodayH24Float64.UnmarshalJSON parseDigits (7, 8)
          (some (.arr [.str "1", .str "2", .str "3"]))
          = ((7, 8), some (.errorf "Invalid number of entries")))
    ∧ ((parseDigits "1").2 = none ∧ (parseDigits "2").2 = none
      ∧ TradeToday.UnmarshalJSON parseDigits ⟨7, 8⟩ (some (.arr [.str "1", .str "2"]))
          = (⟨1, 2⟩, none)
      ∧ TodayH24Float64.UnmarshalJSON parseDigits (7, 8) (some (.arr [.str "1", .str "2"]))
          = ((1, 2), none)) :=
  ⟨⟨by decide,
    ((two_entry_tuples parseDigits ⟨7, 8⟩ (7, 8)).1 ["1"] (by decide)).1,
    ((two_entry_tuples parseDigits ⟨7, 8⟩ (7, 8)).1 ["1", "2", "3"] (by decide)).2⟩,
   ⟨by decide, by decide,
    ((two_entry_tuples parseDigits ⟨7, 8⟩ (7, 8)).2 "1" "2" (by decide) (by decide)).1,
    ((two_entry_tuples parseDigits ⟨7, 8⟩ (7, 8)).2 "1" "2" (by decide) (by decide)).2⟩⟩

/-- C15: on a JSON array of exactly three strings `AskBid.UnmarshalJSON` returns no error
if and only if `strconv.ParseFloat` accepts all three strings; on success `Price`,
`WholeLotVolume` and `LotVolume` are the floats parsed from the positions 0, 1 and 2; and a
string that `ParseFloat` rejects, at any of the three positions, yields an error. -/
theorem AskBid_UnmarshalJSON_three {F : Type} (parseFloat : String → F × Option Err)
    (t : AskBid F) (s0 s1 s2 : String) :
    ((AskBid.UnmarshalJSON parseFloat t (some (.arr [.str s0, .str s1, .str s2]))).2 = none
        ↔ (parseFloat s0).2 = none ∧ (parseFloat s1).2 = none ∧ (parseFloat s2).2 = none)
      ∧ ((AskBid.UnmarshalJSON parseFloat t (some (.arr [.str s0, .str s1, .str s2]))).2 = none →
          (AskBid.UnmarshalJSON parseFloat t (some (.arr [.str s0, .str s1, .str s2]))).1
            = { Price := (parseFloat s0).1, WholeLotVolume := (parseFloat s1).1,
                LotVolume := (parseFloat s2).1 })
      ∧ (((parseFloat s0).2 ≠ none ∨ (parseFloat s1).2 ≠ none ∨ (parseFloat s2).2 ≠ none) →
          ∃ err, (AskBid.UnmarshalJSON parseFloat t
            (some (.arr [.str s0, .str s1, .str s2]))).2 = some err) := by
  simp only [AskBid.UnmarshalJSON, Option.bind, unmarshalStrings, stringElems, stringElem]
  cases h0 : (parseFloat s0).2 <;> cases h1 : (parseFloat s1).2 <;>
    cases h2 : (parseFloat s2).2 <;> simp [h0, h1, h2]

/-- C15, witness: `["1","2","3"]` decodes to the floats 1, 2, 3, and `["1","x","3"]` is
rejected with the error of `ParseFloat` on `"x"`. -/
theorem AskBid_UnmarshalJSON_three_witness :
    AskBid.UnmarshalJSON parseDigits ⟨7, 8, 9⟩ (some (.arr [.str "1", .str "2", .str "3"]))
        = (⟨1, 2, 3⟩, none)
      ∧ ∃ err, (AskBid.UnmarshalJSON parseDigits ⟨7, 8, 9⟩
          (some (.arr [.str "1", .str "x", .str "3"]))).2 = some err := by
  have h := AskBid_UnmarshalJSON_three parseDigits ⟨7, 8, 9⟩ "1" "2" "3"
  have hx := AskBid_UnmarshalJSON_three parseDigits ⟨7, 8, 9⟩ "1" "x" "3"
  have hok := h.1.mpr ⟨by decide, by decide, by decide⟩
  refine ⟨Prod.ext (h.2.1 hok) hok, hx.2.2 (Or.inr (Or.inl (by decide)))⟩

/-! ### The cursor of the recent trades -/

theorem recentTrade_toJSON {F : Type} (parseFloat : String → F × Option Err) (r : TradeRow F)
    (h : r.numeric parseFloat) :
    recentTrade parseFloat r.toJSON = .ok (.ok (r.trade parseFloat)) := by
  obtain ⟨h1, h2⟩ := h
  simp [recentTrade, TradeRow.toJSON, TradeRow.trade, parseFloatAt, index, asSlice, asString,
    asFloat64, bind, Except.bind, pure, Except.pure, h1, h2]

theorem tradesRows_toJSON {F : Type} (parseFloat : String → F × Option Err)
    (rows : List (TradeRow F)) (trades : List (RecentTrade F))
    (h : ∀ r ∈ rows, r.numeric parseFloat) :
    tradesRows parseFloat (rows.map TradeRow.toJSON) trades
      = .ok (.ok (trades ++ rows.map (TradeRow.trade parseFloat))) := by
  induction rows generalizing trades with
  | nil => simp [tradesRows, pure, Except.pure]
  | cons r rest ih =>
    have hr : r.numeric parseFloat := h r (List.mem_cons_self _ _)
    have hrest : ∀ x ∈ rest, x.numeric parseFloat :=
      fun x hx => h x (List.mem_cons_of_mem _ hx)
    simp [tradesRows, recentTrade_toJSON parseFloat r hr, ih _ hrest, bind, Except.bind]

theorem tradesLoop_pairs {F : Type} [Zero F] (parseFloat : String → F × Option Err)
    (pairs : List (String × List (TradeRow F))) (rest : List (String × JSON F)) (last : F)
    (out : GoMap (List (RecentTrade F)))
    (hkeys : ∀ p ∈ pairs, p.1 ≠ "last")
    (hnum : ∀ p ∈ pairs, ∀ r ∈ p.2, r.numeric parseFloat) :
    tradesLoop parseFloat (tradePairs pairs ++ rest) last out
      = tradesLoop parseFloat rest last (tradesOut parseFloat pairs out) := by
  induction pairs generalizing out with
  | nil => simp [tradePairs, tradesOut]
  | cons p ps ih =>
    have hk : p.1 ≠ "last" := hkeys p (List.mem_cons_self _ _)
    have hn : ∀ r ∈ p.2, r.numeric parseFloat := hnum p (List.mem_cons_self _ _)
    have hks : ∀ q ∈ ps, q.1 ≠ "last" := fun q hq => hkeys q (List.mem_cons_of_mem _ hq)
    have hns : ∀ q ∈ ps, ∀ r ∈ q.2, r.numeric parseFloat :=
      fun q hq => hnum q (List.mem_cons_of_mem _ hq)
    have ih1 := ih (GoMap.set out p.1 (p.2.map (TradeRow.trade parseFloat))) hks hns
    simp only [tradePairs] at ih1
    simp [tradePairs, tradesLoop, hk, asSlice, tradesRows_toJSON parseFloat p.2 [] hn, bind,
      Except.bind, ih1, tradesOut]

/-- C16 (as amended): `ApiTrades` takes the cursor from a `last` member that holds a JSON
string.  On a well-formed result object (its keys are distinct; every pair member is mapped
to an array of well-formed rows; the member `last` is visited at any place among the pairs)
whose `last` holds a numeric string, the call returns no error and a map, and its cursor is
the float parsed from that string. -/
theorem ApiTrades_cursor {F : Type} [Zero F] (parseFloat : String → F × Option Err)
    (cursor : String) (before after : List (String × List (TradeRow F)))
    (hdistinct :
      ((tradePairs before ++ ("last", JSON.str cursor) :: tradePairs after).map
        Prod.fst).Nodup)
    (hnum : ∀ p ∈ before ++ after, ∀ r ∈ p.2, r.numeric parseFloat)
    (hcursor : (parseFloat cursor).2 = none) :
    ∃ out : GoMap (List (RecentTrade F)),
      ApiTrades parseFloat
          (some (Envelope.toJSON
            ⟨[], some (.obj (tradePairs before ++ ("last", .str cursor) :: tradePairs after))⟩),
           none)
        = .ok (some out, (parseFloat cursor).1, none) := by
  have hkeys : ∀ p ∈ before ++ after, p.1 ≠ "last" := by
    intro p hp
    have hq : (p.1, JSON.arr (p.2.map TradeRow.toJSON))
        ∈ tradePairs before ++ tradePairs after := by
      rw [tradePairs, tradePairs, ← List.map_append]
      exact List.mem_map_of_mem _ hp
    exact key_ne_last _ _ _ hdistinct _ hq
  have hb := tradesLoop_pairs parseFloat before (("last", .str cursor) :: tradePairs after) 0 []
    (fun p hp => hkeys p (List.mem_append_left _ hp))
    (fun p hp => hnum p (List.mem_append_left _ hp))
  refine ⟨tradesOut parseFloat before [], ?_⟩
  simp only [ApiTrades, parseNil, parse_envelope_untyped, List.length_nil, gt_iff_lt,
    lt_self_iff_false, if_false, Dyn.asMap, asMap, bind, Except.bind, hb]
  simp [tradesLoop, asString, bind, Except.bind, hcursor, pure, Except.pure]

/-- C16, witness: the result
`{"XXBTZEUR": [["1","2",3,"b","l",""]], "last": "5", "XETHZEUR": [["7","8",9,"s","m",""]]}`
with the member `last` between the two pairs. -/
theorem ApiTrades_cursor_witness :
    ∃ out : GoMap (List (RecentTrade Int)),
      ApiTrades parseDigits
          (some (.obj [("error", .arr []),
            ("result", .obj [
              ("XXBTZEUR", .arr [.arr [.str "1", .str "2", .num 3, .str "b", .str "l",
                .str ""]]),
              ("last", .str "5"),
              ("XETHZEUR", .arr [.arr [.str "7", .str "8", .num 9, .str "s", .str "m",
                .str ""]])])]),
           none)
        = .ok (some out, 5, none) :=
  ApiTrades_cursor parseDigits "5" [("XXBTZEUR", [⟨"1", "2", 3, "b", "l", ""⟩])]
    [("XETHZEUR", [⟨"7", "8", 9, "s", "m", ""⟩])]
    (by decide) (by decide) (by decide)

/-- C16, counterexample: when the member `last` holds the JSON number 5, the type assertion
`value.(string)` of `ApiTrades` panics, whether `last` is visited before or after the pair;
no cursor is returned. -/
theorem ApiTrades_number_cursor_panics :
    ApiTrades parseDigits
        (some (.obj [("error", .arr []),
          ("result", .obj [
            ("XXBTZEUR", .arr [.arr [.str "1", .str "2", .num 3, .str "b", .str "l",
              .str ""]]),
            ("last", .num 5)])]),
         none)
      = .error .typeAssertion
    ∧ ApiTrades parseDigits
        (some (.obj [("error", .arr []),
          ("result", .obj [
            ("last", .num 5),
            ("XXBTZEUR", .arr [.arr [.str "1", .str "2", .num 3, .str "b", .str "l",
              .str ""]])])]),
         none)
      = .error .typeAssertion := by
  constructor <;> rfl

/-! ### The request of a signed and of an unsigned `Query` -/

/-- The headers of an unsigned request. -/
theorem unsigned_headers (userAgent : String) :
    GoMap.set (if userAgent ≠ "" then GoMap.set [] "User-Agent" userAgent else [])
        "Content-Type" "application/x-www-form-urlencoded"
      = (if userAgent ≠ "" then [("User-Agent", userAgent)] else [])
          ++ [("Content-Type", "application/x-www-form-urlencoded")] := by
  by_cases h : userAgent = "" <;> simp [GoMap.set, h]

/-- C17: a signed `Query` (of `KrakenApi` and of `ApiClient`) hands to the transport a
request whose method is POST, whose headers carry `API-Key` = the key of the client,
`API-Sign` = `createKrakenSignature` of the path, of the parameter set with the stamped
nonce and of the base64-decoded secret, and `Content-Type` =
`application/x-www-form-urlencoded`, and whose parameter set is the very set that was
signed: the caller's set with `nonce` set to the decimal form of the clock value. -/
theorem Query_signed_request (c : Crypto) (now : Int)
    (key secret apiRoot userAgent url_path : String) (params : Values) :
    (∀ executeHttpQuery : Request → Bytes × Option Err,
        KrakenApi.Query c executeHttpQuery now ⟨key, secret, apiRoot, userAgent⟩ url_path
            params true
          = executeHttpQuery
              (queryRequest c now key secret apiRoot userAgent url_path params true)
        ∧ ApiClient.Query c executeHttpQuery now ⟨key, secret, apiRoot, userAgent⟩ url_path
            params true
          = executeHttpQuery
              (queryRequest c now key secret apiRoot userAgent url_path params true))
      ∧ (queryRequest c now key secret apiRoot userAgent url_path params true).method = "POST"
      ∧ GoMap.get? (queryRequest c now key secret apiRoot userAgent url_path params true).headers
          "API-Key" = some key
      ∧ GoMap.get? (queryRequest c now key secret apiRoot userAgent url_path params true).headers
          "API-Sign"
        = some (createKrakenSignature c url_path
            (queryRequest c now key secret apiRoot userAgent url_path params true).params
            (c.decodeString secret).1)
      ∧ GoMap.get? (queryRequest c now key secret apiRoot userAgent url_path params true).headers
          "Content-Type" = some "application/x-www-form-urlencoded"
      ∧ (queryRequest c now key secret apiRoot userAgent url_path params true).params
          = Values.Set params "nonce" (toString now)
      ∧ Values.Get (queryRequest c now key secret apiRoot userAgent url_path params true).params
          "nonce" = toString now := by
  refine ⟨fun _ => ⟨rfl, rfl⟩, rfl, ?_, ?_, ?_, rfl, ?_⟩
  · simp only [queryRequest, if_true]
    rw [signed_headers]
    by_cases h : userAgent = "" <;> simp [GoMap.get?, h]
  · simp only [queryRequest, if_true]
    rw [signed_headers]
    by_cases h : userAgent = "" <;> simp [GoMap.get?, h]
  · simp only [queryRequest, if_true]
    rw [signed_headers]
    by_cases h : userAgent = "" <;> simp [GoMap.get?, h]
  · simp [queryRequest, Values.Get, Values.Set, GoMap.get?_set_self]

/-- C18: an unsigned `Query` (of `KrakenApi` and of `ApiClient`) hands to the transport a
request whose method is GET, whose headers contain neither `API-Key` nor `API-Sign`, and
whose parameter set is the caller's, unchanged: no nonce is added. -/
theorem Query_unsigned_request (c : Crypto) (now : Int)
    (key secret apiRoot userAgent url_path : String) (params : Values) :
    (∀ executeHttpQuery : Request → Bytes × Option Err,
        KrakenApi.Query c executeHttpQuery now ⟨key, secret, apiRoot, userAgent⟩ url_path
            params false
          = executeHttpQuery
              (queryRequest c now key secret apiRoot userAgent url_path params false)
        ∧ ApiClient.Query c executeHttpQuery now ⟨key, secret, apiRoot, userAgent⟩ url_path
            params false
          = executeHttpQuery
              (queryRequest c now key secret apiRoot userAgent url_path params false))
      ∧ (queryRequest c now key secret apiRoot userAgent url_path params false).method = "GET"
      ∧ GoMap.get? (queryRequest c now key secret apiRoot userAgent url_path params false).headers
          "API-Key" = none
      ∧ GoMap.get? (queryRequest c now key secret apiRoot userAgent url_path params false).headers
          "API-Sign" = none
      ∧ (queryRequest c now key secret apiRoot userAgent url_path params false).params
          = params := by
  refine ⟨fun _ => ⟨rfl, rfl⟩, rfl, ?_, ?_, rfl⟩
  · simp only [queryRequest, Bool.false_eq_true, if_false]
    rw [unsigned_headers]
    by_cases h : userAgent = "" <;> simp [GoMap.get?, h]
  · simp only [queryRequest, Bool.false_eq_true, if_false]
    rw [unsigned_headers]
    by_cases h : userAgent = "" <;> simp [GoMap.get?, h]

/-! ### Typed results and request parameters -/

/-- C19: on the trade-balance result with `eb` = 1, `tb` = 2, `m` = 3, `n` = 4, `c` = 5,
`v` = 6, `e` = 7, `mf` = 8, `ml` = 9, `ApiTradeBalance` leaves both `V` and `E` at zero: the
field `E` is tagged `v` like the field `V`, so that neither field decodes a member, and no
field decodes the member `e`.  The other seven fields are fed by their keys. -/
theorem ApiTradeBalance_drops_v_and_e :
    ApiTradeBalance parseDigits
        (some (.obj [("error", .arr []),
          ("result", .obj [("eb", .str "1"), ("tb", .str "2"), ("m", .str "3"),
            ("n", .str "4"), ("c", .str "5"), ("v", .str "6"), ("e", .str "7"),
            ("mf", .str "8"), ("ml", .str "9")])]),
         none)
      = .ok (some { Eb := 1, Tb := 2, M := 3, N := 4, C := 5, V := 0, E := 0, Mf := 8,
                    Ml := 9 }, none) := by
  rfl

/-- C20: for the call `ApiAddOrder("XXBTZEUR", "buy", "stop-loss-limit", 1, 2, 3, "")` the
request parameter `price2` is `"1"`, the formatting of the argument `price`, and not `"2"`,
the formatting of the argument `price2`.  With `price2 = 0` no parameter `price2` is
sent. -/
theorem ApiAddOrder_price2_is_price :
    ApiAddOrder.params formatDigits "XXBTZEUR" "buy" "stop-loss-limit" 1 2 3 ""
      = [("pair", ["XXBTZEUR"]), ("type", ["buy"]), ("ordertype", ["stop-loss-limit"]),
         ("price", ["1"]), ("volume", ["3"]), ("price2", ["1"])]
    ∧ Values.Get (ApiAddOrder.params formatDigits "XXBTZEUR" "buy" "stop-loss-limit" 1 2 3 "")
        "price2" = "1"
    ∧ formatDigits 2 = "2"
    ∧ GoMap.get? (ApiAddOrder.params formatDigits "XXBTZEUR" "buy" "limit" 1 0 3 "") "price2"
        = none := by
  refine ⟨by decide, by decide, by decide, by decide⟩

/-! ### The hashed message and the nonce -/

theorem GoMap.set_keys {β : Type} (m : GoMap β) (key : String) (v1 v2 : β) :
    (GoMap.set m key v1).map Prod.fst = (GoMap.set m key v2).map Prod.fst := by
  induction m with
  | nil => rfl
  | cons e rest ih =>
    obtain ⟨k, w⟩ := e
    by_cases h : k = key
    · simp [GoMap.set, h]
    · simp [GoMap.set, h, ih]

theorem GoMap.set_length_pos {β : Type} (m : GoMap β) (key : String) (v : β) :
    (GoMap.set m key v).length ≠ 0 := by
  cases m with
  | nil => simp [GoMap.set]
  | cons e rest =>
    obtain ⟨k, w⟩ := e
    by_cases h : k = key <;> simp [GoMap.set, h]

theorem GoMap.get?_set_other {β : Type} (m : GoMap β) (key other : String) (v : β)
    (h : other ≠ key) : GoMap.get? (GoMap.set m key v) other = GoMap.get? m other := by
  induction m with
  | nil =>
    have h2 : ¬ key = other := fun e => h e.symm
    simp [GoMap.set, GoMap.get?, h2]
  | cons e rest ih =>
    obtain ⟨k, w⟩ := e
    by_cases hk : k = key
    · subst hk
      have h2 : ¬ k = other := fun e => h e.symm
      simp [GoMap.set, GoMap.get?, h2]
    · by_cases hko : k = other
      · subst hko
        simp [GoMap.set, GoMap.get?, hk]
      · simp [GoMap.set, GoMap.get?, hk, hko, ih]

/-- The escaped form of a string is at least as long as the escaped form of each of its
initial segments. -/
theorem QueryEscape_length_mono (a b : String) (x : List Char) (h : b.data = a.data ++ x) :
    (QueryEscape a).length ≤ (QueryEscape b).length := by
  simp only [QueryEscape, String.length, utf8, h, List.flatMap_append, List.length_append]
  omega

theorem encodeValues_length_mono (keyEscaped : String) (vs1 vs2 : List String)
    (buf1 buf2 : String)
    (hvs : List.Forall₂ (fun a b => (QueryEscape a).length ≤ (QueryEscape b).length) vs1 vs2)
    (hbuf : buf1.length ≤ buf2.length) :
    (encodeValues keyEscaped vs1 buf1).length ≤ (encodeValues keyEscaped vs2 buf2).length := by
  induction hvs generalizing buf1 buf2 with
  | nil => simpa [encodeValues] using hbuf
  | cons hab _ ih =>
    simp only [encodeValues]
    apply ih
    by_cases h1 : buf1.length > 0
    · have h2 : buf2.length > 0 := lt_of_lt_of_le h1 hbuf
      simp only [h1, h2, if_true, String.length_append]
      omega
    · by_cases h2 : buf2.length > 0
      · simp only [h1, h2, if_true, if_false, String.length_append]
        omega
      · simp only [h1, h2, if_false, String.length_append]
        omega

theorem encodeKeys_length_mono (v1 v2 : Values) (ks : List String) (buf1 buf2 : String)
    (hv : ∀ k, List.Forall₂ (fun a b => (QueryEscape a).length ≤ (QueryEscape b).length)
      ((GoMap.get? v1 k).getD []) ((GoMap.get? v2 k).getD []))
    (hbuf : buf1.length ≤ buf2.length) :
    (encodeKeys v1 ks buf1).length ≤ (encodeKeys v2 ks buf2).length := by
  induction ks generalizing buf1 buf2 with
  | nil => simpa [encodeKeys] using hbuf
  | cons k rest ih =>
    simp only [encodeKeys]
    exact ih _ _ (encodeValues_length_mono _ _ _ _ _ (hv k) hbuf)

theorem forall₂_le_refl (vs : List String) :
    List.Forall₂ (fun a b => (QueryEscape a).length ≤ (QueryEscape b).length) vs vs := by
  induction vs with
  | nil => exact List.Forall₂.nil
  | cons v rest ih => exact List.Forall₂.cons (le_refl _) ih

/-- The encoding of a parameter set grows with its nonce: when the nonce `a` is an initial
segment of the nonce `b`, the encoding with `a` is at most as long as the encoding with
`b`. -/
theorem Encode_nonce_length_mono (params : Values) (a b : String) (x : List Char)
    (h : b.data = a.data ++ x) :
    (Values.Encode (Values.Set params "nonce" a)).length
      ≤ (Values.Encode (Values.Set params "nonce" b)).length := by
  simp only [Values.Encode, Values.Set, GoMap.set_length_pos, if_false]
  rw [GoMap.set_keys params "nonce" [a] [b]]
  apply encodeKeys_length_mono
  · intro k
    by_cases hk : k = "nonce"
    · subst hk
      simp only [GoMap.get?_set_self, Option.getD_some]
      exact List.Forall₂.cons (QueryEscape_length_mono a b x h) List.Forall₂.nil
    · simp only [GoMap.get?_set_other _ _ _ _ hk]
      exact forall₂_le_refl _
  · exact le_refl _

theorem hashed_message_ne_aux (params : Values) (a b : String) (x : List Char)
    (hb : b.data = a.data ++ x)
    (he : (Values.Encode (Values.Set params "nonce" a)).data
      = x ++ (Values.Encode (Values.Set params "nonce" b)).data) : a = b := by
  have hmono := Encode_nonce_length_mono params a b x hb
  have hlen := congrArg List.length he
  simp only [String.length, List.length_append] at hmono hlen
  have hx : x = [] := List.length_eq_zero.mp (by omega)
  subst hx
  rw [List.append_nil] at hb
  exact String.ext hb.symm

/-- The string that `createKrakenSignature` hashes, `values.Get("nonce")` followed by
`values.Encode()`, is different for two parameter sets that differ only in their nonce. -/
theorem hashed_message_ne (params : Values) (n1 n2 : String) (h : n1 ≠ n2) :
    Values.Get (Values.Set params "nonce" n1) "nonce"
        ++ Values.Encode (Values.Set params "nonce" n1)
      ≠ Values.Get (Values.Set params "nonce" n2) "nonce"
        ++ Values.Encode (Values.Set params "nonce" n2) := by
  intro heq
  have hg1 : Values.Get (Values.Set params "nonce" n1) "nonce" = n1 := by
    simp [Values.Get, Values.Set, GoMap.get?_set_self]
  have hg2 : Values.Get (Values.Set params "nonce" n2) "nonce" = n2 := by
    simp [Values.Get, Values.Set, GoMap.get?_set_self]
  rw [hg1, hg2] at heq
  have hd := congrArg String.data heq
  simp only [String.data_append] at hd
  rcases List.append_eq_append_iff.mp hd with ⟨x, hb, he⟩ | ⟨x, ha, he⟩
  · exact h (hashed_message_ne_aux params n1 n2 x hb he)
  · exact h (hashed_message_ne_aux params n2 n1 x ha he).symm

/-! ### Cancel results and trade volumes -/

/-- C21: on the cancel-order result `{"count": 1, "pending": true}`, `ApiCancelOrder`
returns `Count = 1` and `IsPending = false`: the field `IsPending` has no tag, its JSON name
is `IsPending`, and the member `pending` is decoded by no field. -/
theorem ApiCancelOrder_ignores_pending :
    ApiCancelOrder (fun x : Int => some x)
        (some (.obj [("error", .arr []),
          ("result", .obj [("count", .num 1), ("pending", .bool true)])]),
         none)
      = .ok (some { Count := 1, IsPending := false }, none) := by
  rfl

/-- C22: on the trade-volume result `{"currency": "ZUSD", "volume": "12"}`,
`ApiTradeVolume` returns `Volume = 12` and the empty `Currency`: the field `Currency` is
tagged `cuurrency`, and the member `currency` is decoded by no field. -/
theorem ApiTradeVolume_ignores_currency :
    ApiTradeVolume parseDigits
        (some (.obj [("error", .arr []),
          ("result", .obj [("currency", .str "ZUSD"), ("volume", .str "12")])]),
         none)
      = (some { Currency := "", Volume := 12, Fees := none, FeesMaker := none }, none) := by
  rfl

/-! ### Totality of the signature -/

/-- C24: `createKrakenSignature` never fails because of the parameters.  For every path,
parameter set and secret it returns a string, and that string is a base64 encoding (a value
of `EncodeToString`); when the parameter set has no `nonce` key, or no value under it, the
nonce read by `Get` is the empty string and the hashed message is just the encoded
parameters. -/
theorem createKrakenSignature_total (c : Crypto) (url_path : String) (values : Values)
    (secret : Bytes) :
    (∃ code : Bytes, createKrakenSignature c url_path values secret = c.encodeToString code)
      ∧ ((GoMap.get? values "nonce" = none ∨ GoMap.get? values "nonce" = some []) →
          Values.Get values "nonce" = ""
            ∧ createKrakenSignature c url_path values secret
              = c.encodeToString (c.hmacSha512Sum secret
                  (utf8 url_path ++ c.sha256Sum (utf8 (Values.Encode values))))) := by
  refine ⟨⟨_, rfl⟩, fun h => ?_⟩
  have hget : Values.Get values "nonce" = "" := by
    rcases h with h | h <;> simp [Values.Get, h]
  refine ⟨hget, ?_⟩
  simp only [createKrakenSignature, getSha256, getHMacSha512, hget]
  have hempty : "" ++ Values.Encode values = Values.Encode values := String.ext (by simp)
  rw [hempty]

/-- C24, witness: the parameter set `{pair: XXBTZEUR}`, which has no nonce, and the one with
the key `a b` and the value `x/y`. -/
theorem createKrakenSignature_total_witness :
    GoMap.get? ([("pair", ["XXBTZEUR"])] : Values) "nonce" = none
      ∧ Values.Get [("pair", ["XXBTZEUR"])] "nonce" = ""
      ∧ createKrakenSignature plainCrypto "/0/private/Balance" [("pair", ["XXBTZEUR"])] [1, 2]
          = plainCrypto.encodeToString (plainCrypto.hmacSha512Sum [1, 2]
              (utf8 "/0/private/Balance"
                ++ plainCrypto.sha256Sum (utf8 (Values.Encode [("pair", ["XXBTZEUR"])]))))
      ∧ ∃ code : Bytes,
          createKrakenSignature plainCrypto "" [("a b", ["x/y", ""]), ("", [])] []
            = plainCrypto.encodeToString code := by
  have h := createKrakenSignature_total plainCrypto "/0/private/Balance"
    [("pair", ["XXBTZEUR"])] [1, 2]
  have h2 := createKrakenSignature_total plainCrypto "" [("a b", ["x/y", ""]), ("", [])] []
  have hn : GoMap.get? ([("pair", ["XXBTZEUR"])] : Values) "nonce" = none := by decide
  exact ⟨hn, (h.2 (Or.inl hn)).1, (h.2 (Or.inl hn)).2, h2.1⟩

/-! ### The signature flag of the endpoint wrappers -/

/-- C28: every endpoint wrapper whose `Query` call names a path under `/0/private/` passes
`with_signature = true`, every wrapper whose call names a path under `/0/public/` passes
`with_signature = false`, and every wrapper is of one of the two kinds. -/
theorem Wrapper_signature_flag (w : Wrapper) :
    (pathUnder "/0/private/" w.queryCall.1 = true → w.queryCall.2 = true)
      ∧ (pathUnder "/0/public/" w.queryCall.1 = true → w.queryCall.2 = false)
      ∧ (pathUnder "/0/private/" w.queryCall.1 = true
          ∨ pathUnder "/0/public/" w.queryCall.1 = true) := by
  cases w <;> decide

/-- C28, witness: `ApiBalance` queries `/0/private/Balance` with a signature, and
`ApiServerTime` queries `/0/public/Time` without one. -/
theorem Wrapper_signature_flag_witness :
    (pathUnder "/0/private/" Wrapper.ApiBalance.queryCall.1 = true
      ∧ Wrapper.ApiBalance.queryCall = ("/0/private/Balance", true))
    ∧ (pathUnder "/0/public/" Wrapper.ApiServerTime.queryCall.1 = true
      ∧ Wrapper.ApiServerTime.queryCall = ("/0/public/Time", false)) := by
  have h1 := (Wrapper_signature_flag Wrapper.ApiBalance).1 (by decide)
  have h2 := (Wrapper_signature_flag Wrapper.ApiServerTime).2.1 (by decide)
  exact ⟨⟨by decide, Prod.ext rfl h1⟩, ⟨by decide, Prod.ext rfl h2⟩⟩

/-! ### The order of the keys of an OHLC result -/

/-- The value of `ApiOHLC` on a well-formed result whose member `last` is visited after the
pairs `before` and before the pairs `after`. -/
theorem ApiOHLC_wellformed {F : Type} [Zero F] (parseFloat : String → F × Option Err)
    (cursor : F) (before after : List (String × List (OHLCRow F)))
    (hkeys : ∀ p ∈ before ++ after, p.1 ≠ "last")
    (hnum : ∀ p ∈ before ++ after, ∀ r ∈ p.2, r.numeric parseFloat) :
    ApiOHLC parseFloat
        (some (Envelope.toJSON
          ⟨[], some (.obj (ohlcPairs before ++ ("last", .num cursor) :: ohlcPairs after))⟩),
         none)
      = .ok (cursor,
          some ((before ++ after).flatMap (fun p => p.2.map (OHLCRow.entry parseFloat))),
          none) := by
  have hb := ohlcLoop_pairs parseFloat before (("last", .num cursor) :: ohlcPairs after) 0 []
    (fun p hp => hkeys p (List.mem_append_left _ hp))
    (fun p hp => hnum p (List.mem_append_left _ hp))
  have ha := ohlcLoop_pairs parseFloat after [] cursor
    (before.flatMap (fun p => p.2.map (OHLCRow.entry parseFloat)))
    (fun p hp => hkeys p (List.mem_append_right _ hp))
    (fun p hp => hnum p (List.mem_append_right _ hp))
  rw [List.append_nil] at ha
  rw [List.nil_append] at hb
  simp only [ApiOHLC, parseNil, parse_envelope_untyped, List.length_nil, gt_iff_lt,
    lt_self_iff_false, if_false, Dyn.asMap, asMap, bind, Except.bind, hb]
  simp [ohlcLoop, asFloat64, bind, Except.bind, ha, pure, Except.pure]

theorem perm_short_eq {β : Type} (xs ys : List β) (h : xs.Perm ys) (hlen : xs.length ≤ 1) :
    xs = ys := by
  cases xs with
  | nil => exact h.nil_eq
  | cons x rest =>
    cases rest with
    | nil => exact List.singleton_perm.mp h
    | cons y rest2 =>
      simp only [List.length_cons] at hlen
      omega

/-- C25 (as amended): two decodings of the same valid OHLC payload, whose keys are visited
in two different orders, return the same cursor and the same entries up to the order of the
pairs: the entries of one are a rearrangement of the entries of the other, and the two lists
are equal when the payload has at most one pair. -/
theorem ApiOHLC_key_order {F : Type} [Zero F] (parseFloat : String → F × Option Err)
    (cursor : F) (before1 after1 before2 after2 : List (String × List (OHLCRow F)))
    (hperm : (before1 ++ after1).Perm (before2 ++ after2))
    (hkeys : ∀ p ∈ before1 ++ after1, p.1 ≠ "last")
    (hnum : ∀ p ∈ before1 ++ after1, ∀ r ∈ p.2, r.numeric parseFloat) :
    ∃ entries1 entries2 : List (OHLCEntry F),
      ApiOHLC parseFloat
          (some (Envelope.toJSON
            ⟨[], some (.obj (ohlcPairs before1 ++ ("last", .num cursor) :: ohlcPairs after1))⟩),
           none)
        = .ok (cursor, some entries1, none)
      ∧ ApiOHLC parseFloat
          (some (Envelope.toJSON
            ⟨[], some (.obj (ohlcPairs before2 ++ ("last", .num cursor) :: ohlcPairs after2))⟩),
           none)
        = .ok (cursor, some entries2, none)
      ∧ entries1.Perm entries2
      ∧ ((before1 ++ after1).length ≤ 1 → entries1 = entries2) := by
  have hkeys2 : ∀ p ∈ before2 ++ after2, p.1 ≠ "last" :=
    fun p hp => hkeys p (hperm.mem_iff.mpr hp)
  have hnum2 : ∀ p ∈ before2 ++ after2, ∀ r ∈ p.2, r.numeric parseFloat :=
    fun p hp => hnum p (hperm.mem_iff.mpr hp)
  refine ⟨_, _, ApiOHLC_wellformed parseFloat cursor before1 after1 hkeys hnum,
    ApiOHLC_wellformed parseFloat cursor before2 after2 hkeys2 hnum2,
    List.Perm.flatMap_right _ hperm, fun hlen => ?_⟩
  rw [perm_short_eq _ _ hperm hlen]

/-- C25, witness: the payload `{"XBTEUR": [[0,"1","2","3","4","5","6",7]], "last": 12345}`
visited with `last` last and with `last` first. -/
theorem ApiOHLC_key_order_witness :
    ∃ entries1 entries2 : List (OHLCEntry Int),
      ApiOHLC parseDigits
          (some (.obj [("error", .arr []),
            ("result", .obj [
              ("XBTEUR", .arr [.arr [.num 0, .str "1", .str "2", .str "3", .str "4",
                .str "5", .str "6", .num 7]]),
              ("last", .num 12345)])]),
           none)
        = .ok (12345, some entries1, none)
      ∧ ApiOHLC parseDigits
          (some (.obj [("error", .arr []),
            ("result", .obj [
              ("last", .num 12345),
              ("XBTEUR", .arr [.arr [.num 0, .str "1", .str "2", .str "3", .str "4",
                .str "5", .str "6", .num 7]])])]),
           none)
        = .ok (12345, some entries2, none)
      ∧ entries1.Perm entries2
      ∧ entries1 = entries2 := by
  obtain ⟨e1, e2, h1, h2, hp, he⟩ := ApiOHLC_key_order parseDigits 12345
    [("XBTEUR", [⟨0, "1", "2", "3", "4", "5", "6", 7⟩])] []
    [] [("XBTEUR", [⟨0, "1", "2", "3", "4", "5", "6", 7⟩])]
    (List.Perm.refl _) (by decide) (by decide)
  exact ⟨e1, e2, h1, h2, hp, he (by decide)⟩

/-- C25, counterexample: the valid payload with the two pairs `A` and `B` decodes to the
entries of `A` followed by those of `B` when the key `A` is visited first, and to the
entries of `B` followed by those of `A` when the key `B` is visited first: the two results
are different. -/
theorem ApiOHLC_depends_on_key_order :
    ApiOHLC parseDigits
        (some (.obj [("error", .arr []),
          ("result", .obj [
            ("A", .arr [.arr [.num 1, .str "1", .str "1", .str "1", .str "1", .str "1",
              .str "1", .num 1]]),
            ("B", .arr [.arr [.num 2, .str "2", .str "2", .str "2", .str "2", .str "2",
              .str "2", .num 2]]),
            ("last", .num 9)])]),
         none)
      = .ok (9, some [⟨1, 1, 1, 1, 1, 1, 1, 1⟩, ⟨2, 2, 2, 2, 2, 2, 2, 2⟩], none)
    ∧ ApiOHLC parseDigits
        (some (.obj [("error", .arr []),
          ("result", .obj [
            ("B", .arr [.arr [.num 2, .str "2", .str "2", .str "2", .str "2", .str "2",
              .str "2", .num 2]]),
            ("A", .arr [.arr [.num 1, .str "1", .str "1", .str "1", .str "1", .str "1",
              .str "1", .num 1]]),
            ("last", .num 9)])]),
         none)
      = .ok (9, some [⟨2, 2, 2, 2, 2, 2, 2, 2⟩, ⟨1, 1, 1, 1, 1, 1, 1, 1⟩], none)
    ∧ ([⟨1, 1, 1, 1, 1, 1, 1, 1⟩, ⟨2, 2, 2, 2, 2, 2, 2, 2⟩] : List (OHLCEntry Int))
      ≠ [⟨2, 2, 2, 2, 2, 2, 2, 2⟩, ⟨1, 1, 1, 1, 1, 1, 1, 1⟩] := by
  refine ⟨rfl, rfl, ?_⟩
  simp

/-! ### Panics of the untyped decoders -/

theorem balanceLoop_no_panic {F : Type} (parseFloat : String → F × Option Err)
    (ms : List (String × JSON F)) (balance : GoMap F) (h : balanceKinds ms) :
    ∃ r, balanceLoop parseFloat ms balance = .ok r := by
  induction ms generalizing balance with
  | nil => exact ⟨_, rfl⟩
  | cons m rest ih =>
    obtain ⟨key, value⟩ := m
    obtain ⟨s, hs⟩ := h (key, value) (List.mem_cons_self _ _)
    simp only at hs
    subst hs
    have hrest : balanceKinds rest := fun x hx => h x (List.mem_cons_of_mem _ hx)
    simp only [balanceLoop, asString, bind, Except.bind]
    cases hp : (parseFloat s).2 with
    | some err => exact ⟨_, rfl⟩
    | none => exact ih _ hrest

theorem ohlcEntry_no_panic {F : Type} (parseFloat : String → F × Option Err)
    (r : OHLCRow F) : ∃ e, ohlcEntry parseFloat r.toJSON = .ok e := by
  simp only [ohlcEntry, OHLCRow.toJSON, parseFloatAt, index, asSlice, asString, asFloat64,
    bind, Except.bind, pure, Except.pure, List.get?]
  repeat' split
  all_goals exact ⟨_, rfl⟩

theorem ohlcRows_no_panic {F : Type} (parseFloat : String → F × Option Err)
    (rows : List (OHLCRow F)) (ohlc_data : List (OHLCEntry F)) :
    ∃ r, ohlcRows parseFloat (rows.map OHLCRow.toJSON) ohlc_data = .ok r := by
  induction rows generalizing ohlc_data with
  | nil => exact ⟨_, rfl⟩
  | cons row rest ih =>
    obtain ⟨e, he⟩ := ohlcEntry_no_panic parseFloat row
    simp only [List.map_cons, ohlcRows, he, bind, Except.bind]
    cases e with
    | error err => exact ⟨_, rfl⟩
    | ok entry => exact ih _

theorem ohlcLoop_no_panic {F : Type} [Zero F] (parseFloat : String → F × Option Err)
    (ms : List (String × JSON F)) (last : F) (ohlc_data : List (OHLCEntry F))
    (h : ohlcKinds ms) : ∃ r, ohlcLoop parseFloat ms last ohlc_data = .ok r := by
  induction ms generalizing last ohlc_data with
  | nil => exact ⟨_, rfl⟩
  | cons m rest ih =>
    obtain ⟨key, value⟩ := m
    have hrest : ohlcKinds rest := fun x hx => h x (List.mem_cons_of_mem _ hx)
    rcases h (key, value) (List.mem_cons_self _ _) with ⟨hk, x, hx⟩ | ⟨hk, rows, hrows⟩
    · simp only at hk hx
      subst hk
      subst hx
      simp only [ohlcLoop, if_true, asFloat64, bind, Except.bind]
      exact ih _ _ hrest
    · simp only at hk hrows
      subst hrows
      obtain ⟨r, hr⟩ := ohlcRows_no_panic parseFloat rows ohlc_data
      simp only [ohlcLoop, hk, if_false, asSlice, bind, Except.bind, hr]
      cases r with
      | error err => exact ⟨_, rfl⟩
      | ok data => exact ih _ _ hrest

theorem recentTrade_no_panic {F : Type} (parseFloat : String → F × Option Err)
    (r : TradeRow F) : ∃ e, recentTrade parseFloat r.toJSON = .ok e := by
  simp only [recentTrade, TradeRow.toJSON, parseFloatAt, index, asSlice, asString, asFloat64,
    bind, Except.bind, pure, Except.pure, List.get?]
  repeat' split
  all_goals exact ⟨_, rfl⟩

theorem tradesRows_no_panic {F : Type} (parseFloat : String → F × Option Err)
    (rows : List (TradeRow F)) (trades : List (RecentTrade F)) :
    ∃ r, tradesRows parseFloat (rows.map TradeRow.toJSON) trades = .ok r := by
  induction rows generalizing trades with
  | nil => exact ⟨_, rfl⟩
  | cons row rest ih =>
    obtain ⟨e, he⟩ := recentTrade_no_panic parseFloat row
    simp only [List.map_cons, tradesRows, he, bind, Except.bind]
    cases e with
    | error err => exact ⟨_, rfl⟩
    | ok trade => exact ih _

theorem tradesLoop_no_panic {F : Type} [Zero F] (parseFloat : String → F × Option Err)
    (ms : List (String × JSON F)) (last : F) (out : GoMap (List (RecentTrade F)))
    (h : tradesKinds ms) : ∃ r, tradesLoop parseFloat ms last out = .ok r := by
  induction ms generalizing last out with
  | nil => exact ⟨_, rfl⟩
  | cons m rest ih =>
    obtain ⟨key, value⟩ := m
    have hrest : tradesKinds rest := fun x hx => h x (List.mem_cons_of_mem _ hx)
    rcases h (key, value) (List.mem_cons_self _ _) with ⟨hk, s, hs⟩ | ⟨hk, rows, hrows⟩
    · simp only at hk hs
      subst hk
      subst hs
      simp only [tradesLoop, if_true, asString, bind, Except.bind]
      cases hp : (parseFloat s).2 with
      | some err => exact ⟨_, rfl⟩
      | none => exact ⟨_, rfl⟩
    · simp only at hk hrows
      subst hrows
      obtain ⟨r, hr⟩ := tradesRows_no_panic parseFloat rows []
      simp only [tradesLoop, hk, if_false, asSlice, bind, Except.bind, hr]
      cases r with
      | error err => exact ⟨_, rfl⟩
      | ok trades => exact ih _ _ hrest

theorem spreadEntry_no_panic {F : Type} (parseFloat : String → F × Option Err)
    (r : SpreadRow F) : ∃ e, spreadEntry parseFloat r.toJSON = .ok e := by
  simp only [spreadEntry, SpreadRow.toJSON, parseFloatAt, index, asSlice, asString, asFloat64,
    bind, Except.bind, pure, Except.pure, List.get?]
  repeat' split
  all_goals exact ⟨_, rfl⟩

theorem spreadRows_no_panic {F : Type} (parseFloat : String → F × Option Err)
    (rows : List (SpreadRow F)) (spreads : List (Spread F)) :
    ∃ r, spreadRows parseFloat (rows.map SpreadRow.toJSON) spreads = .ok r := by
  induction rows generalizing spreads with
  | nil => exact ⟨_, rfl⟩
  | cons row rest ih =>
    obtain ⟨e, he⟩ := spreadEntry_no_panic parseFloat row
    simp only [List.map_cons, spreadRows, he, bind, Except.bind]
    cases e with
    | error err => exact ⟨_, rfl⟩
    | ok spread => exact ih _

theorem spreadLoop_no_panic {F : Type} [Zero F] (parseFloat : String → F × Option Err)
    (ms : List (String × JSON F)) (last : F) (out : GoMap (List (Spread F)))
    (h : spreadKinds ms) : ∃ r, spreadLoop parseFloat ms last out = .ok r := by
  induction ms generalizing last out with
  | nil => exact ⟨_, rfl⟩
  | cons m rest ih =>
    obtain ⟨key, value⟩ := m
    have hrest : spreadKinds rest := fun x hx => h x (List.mem_cons_of_mem _ hx)
    rcases h (key, value) (List.mem_cons_self _ _) with ⟨hk, x, hx⟩ | ⟨hk, rows, hrows⟩
    · simp only at hk hx
      subst hk
      subst hx
      simp only [spreadLoop, if_true, asFloat64, bind, Except.bind]
      exact ih _ _ hrest
    · simp only at hk hrows
      subst hrows
      obtain ⟨r, hr⟩ := spreadRows_no_panic parseFloat rows []
      simp only [spreadLoop, hk, if_false, asSlice, bind, Except.bind, hr]
      cases r with
      | error err => exact ⟨_, rfl⟩
      | ok spreads => exact ih _ _ hrest

/-- C26 (as amended): for an envelope with an empty error array whose result has the
expected JSON kind at every position (the result is an object, `last` is of the kind the
decoder reads, every row is an array of the expected length with strings and numbers at the
expected positions), `ApiBalance`, `ApiOHLC`, `ApiTrades`, `ApiSpread` and
`PublicOrder.UnmarshalJSON` return a result or an error and do not panic, whatever the
strings contain. -/
theorem untyped_decoders_no_panic {F : Type} [Zero F] (parseFloat : String → F × Option Err) :
    (∀ ms : List (String × JSON F), balanceKinds ms →
        ∃ r, ApiBalance parseFloat (some (Envelope.toJSON ⟨[], some (.obj ms)⟩), none) = .ok r)
      ∧ (∀ ms : List (String × JSON F), ohlcKinds ms →
        ∃ r, ApiOHLC parseFloat (some (Envelope.toJSON ⟨[], some (.obj ms)⟩), none) = .ok r)
      ∧ (∀ ms : List (String × JSON F), tradesKinds ms →
        ∃ r, ApiTrades parseFloat (some (Envelope.toJSON ⟨[], some (.obj ms)⟩), none) = .ok r)
      ∧ (∀ ms : List (String × JSON F), spreadKinds ms →
        ∃ r, ApiSpread parseFloat (some (Envelope.toJSON ⟨[], some (.obj ms)⟩), none) = .ok r)
      ∧ (∀ (t : PublicOrder F) (price volume : String) (time : F) (extra : List (JSON F)),
        ∃ r, PublicOrder.UnmarshalJSON parseFloat t
          (some (.arr (.str price :: .str volume :: .num time :: extra))) = .ok r) := by
  refine ⟨fun ms h => ?_, fun ms h => ?_, fun ms h => ?_, fun ms h => ?_,
    fun t price volume time extra => ?_⟩
  · simp only [ApiBalance, parseNil, parse_envelope_untyped, List.length_nil, gt_iff_lt,
      lt_self_iff_false, if_false, Dyn.asMap, asMap, bind, Except.bind]
    exact balanceLoop_no_panic parseFloat ms [] h
  · simp only [ApiOHLC, parseNil, parse_envelope_untyped, List.length_nil, gt_iff_lt,
      lt_self_iff_false, if_false, Dyn.asMap, asMap, bind, Except.bind]
    exact ohlcLoop_no_panic parseFloat ms 0 [] h
  · simp only [ApiTrades, parseNil, parse_envelope_untyped, List.length_nil, gt_iff_lt,
      lt_self_iff_false, if_false, Dyn.asMap, asMap, bind, Except.bind]
    exact tradesLoop_no_panic parseFloat ms 0 [] h
  · simp only [ApiSpread, parseNil, parse_envelope_untyped, List.length_nil, gt_iff_lt,
      lt_self_iff_false, if_false, Dyn.asMap, asMap, bind, Except.bind]
    exact spreadLoop_no_panic parseFloat ms 0 [] h
  · simp only [PublicOrder.UnmarshalJSON, Option.bind, unmarshalSlice, index, asString,
      asFloat64, bind, Except.bind, pure, Except.pure, List.get?]
    repeat' split
    all_goals exact ⟨_, rfl⟩

/-- C26, witness: the balance result `{"ZEUR": "1", "XXBT": "x"}` has a string at every
position, and `ApiBalance` returns without panic; so does `PublicOrder.UnmarshalJSON` on the
level `["1", "x", 3]`. -/
theorem untyped_decoders_no_panic_witness :
    (balanceKinds [("ZEUR", (.str "1" : JSON Int)), ("XXBT", .str "x")]
      ∧ ∃ r, ApiBalance parseDigits
          (some (.obj [("error", .arr []),
            ("result", .obj [("ZEUR", .str "1"), ("XXBT", .str "x")])]), none) = .ok r)
    ∧ ∃ r, PublicOrder.UnmarshalJSON parseDigits ⟨0, 0, 0⟩
        (some (.arr [.str "1", .str "x", .num 3])) = .ok r := by
  have hk : balanceKinds [("ZEUR", (.str "1" : JSON Int)), ("XXBT", .str "x")] := by
    intro m hm
    simp only [List.mem_cons, List.mem_singleton, List.not_mem_nil, or_false] at hm
    rcases hm with hm | hm <;> subst hm
    · exact ⟨"1", rfl⟩
    · exact ⟨"x", rfl⟩
  have h := untyped_decoders_no_panic parseDigits
  exact ⟨⟨hk, h.1 _ hk⟩, h.2.2.2.2 ⟨0, 0, 0⟩ "1" "x" 3 []⟩

/-- C26, counterexample: a wrong JSON kind is not reported as an error, the decoders panic.
`ApiBalance` on the result `{"ZEUR": 1}` (a number where a string is expected), `ApiOHLC` on
the result `[]` (not an object), `ApiTrades` on the result `{"XXBTZEUR": {}}` (rows that are
no array) and `PublicOrder.UnmarshalJSON` on `[1, "2", 3]` fail a type assertion; `ApiSpread`
on the too-short row `[1, "10"]` fails an index expression. -/
theorem untyped_decoders_panic :
    ApiBalance parseDigits
        (some (.obj [("error", .arr []), ("result", .obj [("ZEUR", .num 1)])]), none)
      = .error .typeAssertion
    ∧ ApiOHLC parseDigits
        (some (.obj [("error", .arr []), ("result", .arr [])]), none)
      = .error .typeAssertion
    ∧ ApiTrades parseDigits
        (some (.obj [("error", .arr []), ("result", .obj [("XXBTZEUR", .obj [])])]), none)
      = .error .typeAssertion
    ∧ ApiSpread parseDigits
        (some (.obj [("error", .arr []),
          ("result", .obj [("XXBTZEUR", .arr [.arr [.num 1, .str "10"]])])]), none)
      = .error .indexOutOfRange
    ∧ PublicOrder.UnmarshalJSON parseDigits ⟨0, 0, 0⟩
        (some (.arr [.num 1, .str "2", .num 3]))
      = .error .typeAssertion := by
  refine ⟨rfl, rfl, rfl, rfl, rfl⟩

/-! ### The nonce and the clock -/

theorem digitChar_value (k : Nat) (h : k < 10) : (Nat.digitChar k).toNat - 48 = k := by
  interval_cases k <;> rfl

theorem digitChar_ne_minus (k : Nat) (h : k < 10) : Nat.digitChar k ≠ '-' := by
  interval_cases k <;> decide

theorem toDigitsCore_append (fuel n : Nat) (ds : List Char) :
    Nat.toDigitsCore 10 fuel n ds = Nat.toDigitsCore 10 fuel n [] ++ ds := by
  induction fuel generalizing n ds with
  | zero => simp [Nat.toDigitsCore]
  | succ fuel ih =>
    simp only [Nat.toDigitsCore]
    by_cases h : n / 10 = 0
    · simp [h]
    · simp only [h, if_false]
      rw [ih (n / 10) (Nat.digitChar (n % 10) :: ds), ih (n / 10) [Nat.digitChar (n % 10)]]
      simp

theorem digitsValue_append_single (xs : List Char) (ch : Char) :
    digitsValue (xs ++ [ch]) = 10 * digitsValue xs + (ch.toNat - 48) := by
  simp [digitsValue, List.foldl_append]

theorem digitsValue_toDigitsCore (fuel n : Nat) (h : n < fuel) :
    digitsValue (Nat.toDigitsCore 10 fuel n []) = n := by
  induction fuel generalizing n with
  | zero => omega
  | succ fuel ih =>
    simp only [Nat.toDigitsCore]
    by_cases h0 : n / 10 = 0
    · simp only [h0, if_true]
      have hlt : n < 10 := by omega
      rw [Nat.mod_eq_of_lt hlt]
      simp only [digitsValue, List.foldl]
      rw [digitChar_value n hlt]
      omega
    · simp only [h0, if_false]
      rw [toDigitsCore_append, digitsValue_append_single,
        ih (n / 10) (by omega), digitChar_value (n % 10) (Nat.mod_lt _ (by norm_num))]
      omega

theorem Nat_repr_injective (a b : Nat) (h : Nat.repr a = Nat.repr b) : a = b := by
  simp only [Nat.repr, Nat.toDigits, List.asString] at h
  have hd : Nat.toDigitsCore 10 (a + 1) a [] = Nat.toDigitsCore 10 (b + 1) b [] := by
    injection h
  have := congrArg digitsValue hd
  rwa [digitsValue_toDigitsCore _ _ (Nat.lt_succ_self a),
    digitsValue_toDigitsCore _ _ (Nat.lt_succ_self b)] at this

theorem toDigitsCore_mem (fuel n : Nat) (ds : List Char) (ch : Char)
    (h : ch ∈ Nat.toDigitsCore 10 fuel n ds) : ch ∈ ds ∨ ch ≠ '-' := by
  induction fuel generalizing n ds with
  | zero => exact Or.inl h
  | succ fuel ih =>
    simp only [Nat.toDigitsCore] at h
    by_cases h0 : n / 10 = 0
    · simp only [h0, if_true, List.mem_cons] at h
      rcases h with h | h
      · exact Or.inr (h ▸ digitChar_ne_minus (n % 10) (Nat.mod_lt _ (by norm_num)))
      · exact Or.inl h
    · simp only [h0, if_false] at h
      rcases ih _ _ h with h1 | h1
      · simp only [List.mem_cons] at h1
        rcases h1 with h1 | h1
        · exact Or.inr (h1 ▸ digitChar_ne_minus (n % 10) (Nat.mod_lt _ (by norm_num)))
        · exact Or.inl h1
      · exact Or.inr h1

theorem toDigitsCore_head_ne_minus (fuel n : Nat) :
    (Nat.toDigitsCore 10 fuel n []).head? ≠ some '-' := by
  intro h
  have hmem : '-' ∈ Nat.toDigitsCore 10 fuel n [] := List.mem_of_mem_head? h
  rcases toDigitsCore_mem fuel n [] '-' hmem with h1 | h1
  · simp at h1
  · exact h1 rfl

/-- The decimal form of an integer determines the integer. -/
theorem Int_toString_injective (a b : Int) (h : toString a = toString b) : a = b := by
  cases a with
  | ofNat m =>
    cases b with
    | ofNat k =>
      have : Nat.repr m = Nat.repr k := h
      rw [Nat_repr_injective m k this]
    | negSucc k =>
      exfalso
      have h1 : Nat.repr m = "-" ++ Nat.repr (k + 1) := h
      have h2 := congrArg (fun s => s.data.head?) h1
      simp only [Nat.repr, Nat.toDigits, List.asString, String.data_append] at h2
      exact toDigitsCore_head_ne_minus (m + 1) m (by simpa using h2)
  | negSucc m =>
    cases b with
    | ofNat k =>
      exfalso
      have h1 : "-" ++ Nat.repr (m + 1) = Nat.repr k := h
      have h2 := congrArg (fun s => s.data.head?) h1
      simp only [Nat.repr, Nat.toDigits, List.asString, String.data_append] at h2
      exact toDigitsCore_head_ne_minus (k + 1) k (by simpa using h2.symm)
    | negSucc k =>
      have h1 : "-" ++ Nat.repr (m + 1) = "-" ++ Nat.repr (k + 1) := h
      have h2 := congrArg String.data h1
      simp only [String.data_append, List.append_cancel_left_eq] at h2
      have h3 : Nat.repr (m + 1) = Nat.repr (k + 1) := String.ext h2
      have := Nat_repr_injective _ _ h3
      have hmk : m = k := by omega
      rw [hmk]

/-- C23 (as amended): the nonce stamped by a signed `Query` is the decimal form of the clock
reading `time.Now().UnixNano()` that this call took, and of nothing else: for two signed
calls of one client, with any paths and parameters, the two nonces are equal if and only if
the two clock readings are equal.  Nothing in `Query` orders or serializes the readings. -/
theorem Query_nonce_is_clock_reading (c : Crypto) (key secret apiRoot userAgent : String)
    (url_path1 url_path2 : String) (params1 params2 : Values) (now1 now2 : Int) :
    Values.Get
        (queryRequest c now1 key secret apiRoot userAgent url_path1 params1 true).params "nonce"
      = toString now1
    ∧ Values.Get
        (queryRequest c now2 key secret apiRoot userAgent url_path2 params2 true).params "nonce"
      = toString now2
    ∧ (Values.Get
          (queryRequest c now1 key secret apiRoot userAgent url_path1 params1 true).params
          "nonce"
        = Values.Get
          (queryRequest c now2 key secret apiRoot userAgent url_path2 params2 true).params
          "nonce"
        ↔ now1 = now2) := by
  have h1 : Values.Get
      (queryRequest c now1 key secret apiRoot userAgent url_path1 params1 true).params "nonce"
      = toString now1 := by
    simp [queryRequest, Values.Get, Values.Set, GoMap.get?_set_self]
  have h2 : Values.Get
      (queryRequest c now2 key secret apiRoot userAgent url_path2 params2 true).params "nonce"
      = toString now2 := by
    simp [queryRequest, Values.Get, Values.Set, GoMap.get?_set_self]
  refine ⟨h1, h2, ?_⟩
  rw [h1, h2]
  exact ⟨Int_toString_injective now1 now2, fun h => by rw [h]⟩

/-- C23, counterexample: two signed calls of one client that read the same clock value 17
stamp the same nonce `17`, and a call that reads 16 after a call that read 17 stamps the
smaller nonce `16`: the nonces are not strictly increasing. -/
theorem Query_nonces_not_increasing :
    Values.Get
        (queryRequest plainCrypto 17 "key" "c2VjcmV0" "https://api.kraken.com" "kraken-api"
          "/0/private/Balance" [] true).params "nonce" = "17"
    ∧ Values.Get
        (queryRequest plainCrypto 17 "key" "c2VjcmV0" "https://api.kraken.com" "kraken-api"
          "/0/private/TradeBalance" [("asset", ["ZEUR"])] true).params "nonce" = "17"
    ∧ Values.Get
        (queryRequest plainCrypto 16 "key" "c2VjcmV0" "https://api.kraken.com" "kraken-api"
          "/0/private/TradeBalance" [("asset", ["ZEUR"])] true).params "nonce" = "16" := by
  refine ⟨by decide, by decide, by decide⟩

/-! ### The conversion of a string to bytes is injective -/

theorem mask_or (n : Nat) (h : n < 256) :
    (n &&& 63 ||| 128 = 128 + n % 64) ∧ (n &&& 31 ||| 192 = 192 + n % 32)
      ∧ (n &&& 15 ||| 224 = 224 + n % 16) ∧ (n &&& 7 ||| 240 = 240 + n % 8) := by
  interval_cases n <;> decide

theorem toUInt8_toNat (x : UInt32) : (x.toUInt8).toNat = x.toNat % 256 := by
  show (BitVec.ofNat 8 x.toNat).toNat = _
  simp [BitVec.toNat_ofNat]

theorem shift6_toNat (x : UInt32) : (x >>> 6).toNat = x.toNat / 64 := by
  show (x.toBitVec >>> ((6 : UInt32).mod 32).toBitVec).toNat = _
  have h6 : ((6 : UInt32).mod 32).toBitVec = 6#32 := by rfl
  rw [h6]
  simp [BitVec.toNat_ushiftRight, Nat.shiftRight_eq_div_pow]
  rfl

theorem shift12_toNat (x : UInt32) : (x >>> 12).toNat = x.toNat / 4096 := by
  show (x.toBitVec >>> ((12 : UInt32).mod 32).toBitVec).toNat = _
  have h6 : ((12 : UInt32).mod 32).toBitVec = 12#32 := by rfl
  rw [h6]
  simp [BitVec.toNat_ushiftRight, Nat.shiftRight_eq_div_pow]
  rfl

theorem shift18_toNat (x : UInt32) : (x >>> 18).toNat = x.toNat / 262144 := by
  show (x.toBitVec >>> ((18 : UInt32).mod 32).toBitVec).toNat = _
  have h6 : ((18 : UInt32).mod 32).toBitVec = 18#32 := by rfl
  rw [h6]
  simp [BitVec.toNat_ushiftRight, Nat.shiftRight_eq_div_pow]
  rfl

theorem mask3f (a : UInt8) : (a &&& 0x3f ||| 0x80).toNat = 128 + a.toNat % 64 := by
  show ((a.toBitVec &&& (0x3f : UInt8).toBitVec) ||| (0x80 : UInt8).toBitVec).toNat = _
  rw [BitVec.toNat_or, BitVec.toNat_and]
  exact (mask_or a.toNat a.toBitVec.isLt).1

theorem mask1f (a : UInt8) : (a &&& 0x1f ||| 0xc0).toNat = 192 + a.toNat % 32 := by
  show ((a.toBitVec &&& (0x1f : UInt8).toBitVec) ||| (0xc0 : UInt8).toBitVec).toNat = _
  rw [BitVec.toNat_or, BitVec.toNat_and]
  exact (mask_or a.toNat a.toBitVec.isLt).2.1

theorem mask0f (a : UInt8) : (a &&& 0x0f ||| 0xe0).toNat = 224 + a.toNat % 16 := by
  show ((a.toBitVec &&& (0x0f : UInt8).toBitVec) ||| (0xe0 : UInt8).toBitVec).toNat = _
  rw [BitVec.toNat_or, BitVec.toNat_and]
  exact (mask_or a.toNat a.toBitVec.isLt).2.2.1

theorem mask07 (a : UInt8) : (a &&& 0x07 ||| 0xf0).toNat = 240 + a.toNat % 8 := by
  show ((a.toBitVec &&& (0x07 : UInt8).toBitVec) ||| (0xf0 : UInt8).toBitVec).toNat = _
  rw [BitVec.toNat_or, BitVec.toNat_and]
  exact (mask_or a.toNat a.toBitVec.isLt).2.2.2

theorem utf8EncodeChar_toNat (c : Char) :
    (String.utf8EncodeChar c).map UInt8.toNat = utf8Bytes c.val.toNat := by
  have h1 : (c.val ≤ 0x7f) ↔ c.val.toNat ≤ 127 := UInt32.le_def
  have h2 : (c.val ≤ 0x7ff) ↔ c.val.toNat ≤ 2047 := UInt32.le_def
  have h3 : (c.val ≤ 0xffff) ↔ c.val.toNat ≤ 65535 := UInt32.le_def
  simp only [String.utf8EncodeChar, utf8Bytes, h1, h2, h3]
  split_ifs with g1 g2 g3
  · simp only [List.map, toUInt8_toNat]
    congr 1
    omega
  · simp only [List.map, mask3f, mask1f, toUInt8_toNat, shift6_toNat]
    congr 1
    · omega
    · congr 1
      omega
  · simp only [List.map, mask3f, mask0f, toUInt8_toNat, shift6_toNat, shift12_toNat]
    congr 1
    · omega
    · congr 1
      · omega
      · congr 1
        omega
  · simp only [List.map, mask3f, mask07, toUInt8_toNat, shift6_toNat, shift12_toNat,
      shift18_toNat]
    congr 1
    · omega
    · congr 1
      · omega
      · congr 1
        · omega
        · congr 1
          omega

theorem utf8Bytes_shape (v : Nat) :
    ∃ h t, utf8Bytes v = h :: t ∧ ¬ isContinuation h ∧ ∀ b ∈ t, isContinuation b := by
  simp only [utf8Bytes, isContinuation]
  split_ifs with g1 g2 g3
  · exact ⟨_, _, rfl, by omega, by simp⟩
  · refine ⟨_, _, rfl, by omega, ?_⟩
    intro b hb
    simp only [List.mem_singleton] at hb
    omega
  · refine ⟨_, _, rfl, by omega, ?_⟩
    intro b hb
    simp only [List.mem_cons, List.mem_singleton, List.not_mem_nil, or_false] at hb
    omega
  · refine ⟨_, _, rfl, by omega, ?_⟩
    intro b hb
    simp only [List.mem_cons, List.mem_singleton, List.not_mem_nil, or_false] at hb
    omega

theorem utf8Bytes_injective (v w : Nat) (hv : v < 1114112) (hw : w < 1114112)
    (h : utf8Bytes v = utf8Bytes w) : v = w := by
  simp only [utf8Bytes] at h
  split_ifs at h <;> simp only [List.cons.injEq, and_true, reduceCtorEq, List.ne_cons_self,
    false_and, and_false] at h <;> omega

/-- The split of an encoded character from the bytes that follow it: the character ends
where the continuation bytes end. -/
theorem continuation_split (t1 t2 r1 r2 : List Nat)
    (ht1 : ∀ b ∈ t1, isContinuation b) (ht2 : ∀ b ∈ t2, isContinuation b)
    (hr1 : ∀ b, r1.head? = some b → ¬ isContinuation b)
    (hr2 : ∀ b, r2.head? = some b → ¬ isContinuation b)
    (h : t1 ++ r1 = t2 ++ r2) : t1 = t2 ∧ r1 = r2 := by
  induction t1 generalizing t2 with
  | nil =>
    cases t2 with
    | nil => exact ⟨rfl, by simpa using h⟩
    | cons y t2 =>
      exfalso
      simp only [List.nil_append, List.cons_append] at h
      exact hr1 y (by rw [h]; rfl) (ht2 y (List.mem_cons_self _ _))
  | cons x t1 ih =>
    cases t2 with
    | nil =>
      exfalso
      simp only [List.nil_append, List.cons_append] at h
      exact hr2 x (by rw [← h]; rfl) (ht1 x (List.mem_cons_self _ _))
    | cons y t2 =>
      simp only [List.cons_append, List.cons.injEq] at h
      obtain ⟨hxy, hrest⟩ := h
      obtain ⟨e1, e2⟩ := ih t2 (fun b hb => ht1 b (List.mem_cons_of_mem _ hb))
        (fun b hb => ht2 b (List.mem_cons_of_mem _ hb)) hrest
      exact ⟨by rw [hxy, e1], e2⟩

theorem char_val_lt (c : Char) : c.val.toNat < 1114112 := by
  have h := c.valid
  simp only [UInt32.isValidChar, Nat.isValidChar] at h
  omega

theorem utf8_head (cs : List Char) (b : Nat)
    (h : (cs.flatMap (fun c => utf8Bytes c.val.toNat)).head? = some b) :
    ¬ isContinuation b := by
  cases cs with
  | nil => simp at h
  | cons c rest =>
    obtain ⟨hd, t, he, hh, _⟩ := utf8Bytes_shape c.val.toNat
    simp only [List.flatMap_cons, he, List.cons_append, List.head?_cons,
      Option.some.injEq] at h
    exact h ▸ hh

theorem utf8Bytes_chars_injective (cs1 cs2 : List Char)
    (h : cs1.flatMap (fun c => utf8Bytes c.val.toNat)
      = cs2.flatMap (fun c => utf8Bytes c.val.toNat)) : cs1 = cs2 := by
  induction cs1 generalizing cs2 with
  | nil =>
    cases cs2 with
    | nil => rfl
    | cons c rest =>
      exfalso
      obtain ⟨hd, t, he, _, _⟩ := utf8Bytes_shape c.val.toNat
      simp [List.flatMap_cons, he] at h
  | cons c1 r1 ih =>
    cases cs2 with
    | nil =>
      exfalso
      obtain ⟨hd, t, he, _, _⟩ := utf8Bytes_shape c1.val.toNat
      simp [List.flatMap_cons, he] at h
    | cons c2 r2 =>
      obtain ⟨h1, t1, he1, _, ht1⟩ := utf8Bytes_shape c1.val.toNat
      obtain ⟨h2, t2, he2, _, ht2⟩ := utf8Bytes_shape c2.val.toNat
      have h' := h
      simp only [List.flatMap_cons, he1, he2, List.cons_append, List.cons.injEq] at h'
      obtain ⟨hh, hrest⟩ := h'
      obtain ⟨et, er⟩ := continuation_split t1 t2 _ _ ht1 ht2 (utf8_head r1) (utf8_head r2)
        hrest
      have hbytes : utf8Bytes c1.val.toNat = utf8Bytes c2.val.toNat := by
        rw [he1, he2, hh, et]
      have hval : c1.val.toNat = c2.val.toNat :=
        utf8Bytes_injective _ _ (char_val_lt c1) (char_val_lt c2) hbytes
      have hc : c1 = c2 := by
        apply Char.ext
        exact UInt32.toNat.inj hval
      rw [hc, ih r2 er]

/-- The conversion `[]byte(s)` is injective: two strings with the same bytes are equal. -/
theorem utf8_injective (a b : String) (h : utf8 a = utf8 b) : a = b := by
  have hfun : (fun c => (String.utf8EncodeChar c).map UInt8.toNat)
      = (fun c : Char => utf8Bytes c.val.toNat) := funext utf8EncodeChar_toNat
  simp only [utf8, hfun] at h
  exact String.ext (utf8Bytes_chars_injective a.data b.data h)

/-- C27: the byte string that `createKrakenSignature` feeds to SHA-256, the bytes of
`values.Get("nonce")` followed by `values.Encode()`, is injective in the nonce: for two
parameter sets that are equal except for their nonces `n1 ≠ n2`, arbitrary strings, the two
hashed messages differ. -/
theorem hashed_bytes_injective (params : Values) (n1 n2 : String) (h : n1 ≠ n2) :
    utf8 (Values.Get (Values.Set params "nonce" n1) "nonce"
        ++ Values.Encode (Values.Set params "nonce" n1))
      ≠ utf8 (Values.Get (Values.Set params "nonce" n2) "nonce"
        ++ Values.Encode (Values.Set params "nonce" n2)) :=
  fun hbytes => hashed_message_ne params n1 n2 h (utf8_injective _ _ hbytes)

/-- C27, witness: the nonces `1` and `1nonce=1` in the parameter set `{pair: XXBTZEUR}`; the
message of the first is `1nonce=1&pair=XXBTZEUR`. -/
theorem hashed_bytes_injective_witness :
    ("1" : String) ≠ "1nonce=1"
      ∧ Values.Get (Values.Set [("pair", ["XXBTZEUR"])] "nonce" "1") "nonce"
          ++ Values.Encode (Values.Set [("pair", ["XXBTZEUR"])] "nonce" "1")
        = "1nonce=1&pair=XXBTZEUR"
      ∧ utf8 (Values.Get (Values.Set [("pair", ["XXBTZEUR"])] "nonce" "1") "nonce"
          ++ Values.Encode (Values.Set [("pair", ["XXBTZEUR"])] "nonce" "1"))
        ≠ utf8 (Values.Get (Values.Set [("pair", ["XXBTZEUR"])] "nonce" "1nonce=1") "nonce"
          ++ Values.Encode (Values.Set [("pair", ["XXBTZEUR"])] "nonce" "1nonce=1")) :=
  ⟨by decide, by decide,
   hashed_bytes_injective [("pair", ["XXBTZEUR"])] "1" "1nonce=1" (by decide)⟩

end Kraken
